import Mathlib

/-!
Verification development for the nessie feedback-directed test generator.
The definitions below are shallow embeddings of the Rust source
(`src/errors.rs`, `src/functions.rs`, `src/module_reps.rs`, `src/tests.rs`,
`src/decisions.rs`, `src/mined_seed_reps.rs`).  Rust strings are modelled as
`List Char`; Rust `HashMap`s whose iteration order is irrelevant are modelled
as association lists or as functions with pointwise update; machine integers
are modelled as `Nat` with explicit bounds where overflow matters.
-/

set_option maxHeartbeats 1600000

namespace Nessie

/-! ## Basic enums (src/errors.rs, src/tests.rs, src/functions.rs) -/

/-- Model of `SingleCallCallbackTestResult` (src/errors.rs). -/
inductive SingleCallCallbackTestResult where
  | CallbackCalledSync
  | CallbackCalledAsync
  | NoCallbackCalled
  deriving DecidableEq, Repr

/-- Model of `FunctionCallResult` (src/errors.rs). -/
inductive FunctionCallResult where
  | SingleCallback (r : SingleCallCallbackTestResult)
  | ExecutionError
  deriving DecidableEq, Repr

/-- Model of `ExtensionType` (src/tests.rs). -/
inductive ExtensionType where
  | Sequential
  | Nested
  deriving DecidableEq, Repr

/-- Model of `FunctionCallResult::can_be_extended` (src/errors.rs):
match on (self, ext_type) with the same arm order as the source. -/
def FunctionCallResult.can_be_extended
    (self : FunctionCallResult) (ext_type : ExtensionType) : Bool :=
  match self, ext_type with
  | .ExecutionError, _ => false
  | .SingleCallback .NoCallbackCalled, .Nested => false
  | _, _ => true

/-- Model of `ExtensionType::iter()` from the `EnumIter` derive: the variants
in declaration order. -/
def ExtensionType.iter : List ExtensionType :=
  [ExtensionType.Sequential, ExtensionType.Nested]

/-- Model of `ArgType` (src/functions.rs; the `NullType` and `BoolType`
variants are referenced by src/decisions.rs and src/mined_seed_reps.rs). -/
inductive ArgType where
  | NumberType
  | StringType
  | ArrayType
  | ObjectType
  | CallbackType
  | LibFunctionType
  | AnyType
  | NullType
  | BoolType
  deriving DecidableEq, Repr

/-! ## List-of-characters string machinery

Rust `String`/`str` values are modelled as `List Char`.  The operations used
by the source (`replace`, `split`, `starts_with`, `ends_with`,
`rsplit_once`, `parse::<usize>`, lexicographic comparison) are given
fuel-based executable models here. -/

/-- Fuel-based worker for `str::replace`: at each position, if the (nonempty)
pattern matches, emit the replacement and skip the pattern; otherwise keep one
character and continue. -/
def replaceFuel (pat rep : List Char) : Nat → List Char → List Char
  | _, [] => []
  | 0, s => s
  | fuel + 1, c :: rest =>
      if pat ≠ [] ∧ pat.isPrefixOf (c :: rest) then
        rep ++ replaceFuel pat rep fuel ((c :: rest).drop pat.length)
      else
        c :: replaceFuel pat rep fuel rest

/-- Model of Rust `str::replace(pat, rep)` on `List Char`. -/
def replaceL (pat rep s : List Char) : List Char :=
  replaceFuel pat rep s.length s

/-- Fuel-based worker for `str::split(pat)`: `acc` is the reversed current
piece; a (nonempty) pattern match ends the current piece. -/
def splitFuel (pat : List Char) : Nat → List Char → List Char → List (List Char)
  | _, acc, [] => [acc.reverse]
  | 0, acc, s => [acc.reverse ++ s]
  | fuel + 1, acc, c :: rest =>
      if pat ≠ [] ∧ pat.isPrefixOf (c :: rest) then
        acc.reverse :: splitFuel pat fuel [] ((c :: rest).drop pat.length)
      else
        splitFuel pat fuel (c :: acc) rest

/-- Model of Rust `str::split(pat).collect()` on `List Char`. -/
def splitOnL (pat s : List Char) : List (List Char) :=
  splitFuel pat s.length [] s

/-- Model of `intersperse(sep).collect::<String>()` applied to a list of
string pieces: join the pieces with the separator between them. -/
def intercalateL (sep : List Char) : List (List Char) → List Char
  | [] => []
  | [x] => x
  | x :: y :: rest => x ++ sep ++ intercalateL sep (y :: rest)

/-- Model of Rust `str::starts_with(pat)`. -/
def startsWithL (pat s : List Char) : Bool :=
  pat.isPrefixOf s

/-- Model of Rust `str::ends_with(c)` for a single character: the last
character is `c`. -/
def endsWithChar (c : Char) (s : List Char) : Bool :=
  s.getLast? == some c

/-- Model of Rust `str::rsplit_once(c)`: split around the last occurrence of
`c`, or `none` when `c` does not occur. -/
def rsplitOnce (c : Char) : List Char → Option (List Char × List Char)
  | [] => none
  | x :: xs =>
      match rsplitOnce c xs with
      | some (a, b) => some (x :: a, b)
      | none => if x = c then some ([], xs) else none

/-- Numeric value of a list of decimal digit characters (most significant
first). -/
def charsVal (s : List Char) : Nat :=
  s.foldl (fun acc c => acc * 10 + (c.toNat - 48)) 0

/-- Model of Rust `str::parse::<usize>()`: an optional leading `+` followed
by a nonempty run of decimal digits, whose value must fit in 64 bits
(overflow makes Rust `parse` fail; a `-` sign is rejected for unsigned
types, and so is a second `+`). -/
def parseUsize (s : List Char) : Option Nat :=
  let ds := match s with
    | '+' :: rest => rest
    | _ => s
  if ds ≠ [] ∧ ds.all Char.isDigit ∧ charsVal ds < 2 ^ 64 then
    some (charsVal ds)
  else
    none

/-- Fuel-based worker producing the decimal representation of a natural
number, most significant digit first. -/
def natCharsAux : Nat → Nat → List Char
  | 0, _ => []
  | fuel + 1, n =>
      if n < 10 then [Nat.digitChar n]
      else natCharsAux fuel (n / 10) ++ [Nat.digitChar (n % 10)]

/-- Model of Rust `usize::to_string()` / `Display` for indices: decimal
representation as a `List Char`. -/
def natChars (n : Nat) : List Char :=
  natCharsAux (n + 1) n

/-- Model of Rust `String` lexicographic comparison `<` (all characters used
by the ids are one-byte ASCII, so byte order is character order). -/
def lexLt : List Char → List Char → Bool
  | [], [] => false
  | [], _ :: _ => true
  | _ :: _, [] => false
  | a :: as_, b :: bs => if a = b then lexLt as_ bs else decide (a < b)

/-- Characters of a string literal, for writing `List Char` constants. -/
def strL (s : String) : List Char :=
  s.data

/-- Test whether `pat` occurs as a contiguous substring of `s`. -/
def hasInfix (pat : List Char) : List Char → Bool
  | [] => pat == []
  | c :: rest => pat.isPrefixOf (c :: rest) || hasInfix pat rest

/-! ## Access path model (src/module_reps.rs) -/

/-- Model of `FieldNameType` (src/module_reps.rs). -/
inductive FieldNameType where
  | StringField (s : List Char)
  | IndexField (n : Nat)
  deriving DecidableEq, Repr

/-- Model of `AccessPathModuleCentred` (src/module_reps.rs). -/
inductive AccessPathModuleCentred where
  | RootPath (m : List Char)
  | ReturnPath (p : AccessPathModuleCentred)
  | FieldAccPath (p : AccessPathModuleCentred) (f : FieldNameType)
  | ParamPath (p : AccessPathModuleCentred) (i : Nat)
  | InstancePath (p : AccessPathModuleCentred)
  deriving DecidableEq, Repr

/-- Model of `AccessPathModuleCentred::get_base_path` (src/module_reps.rs). -/
def AccessPathModuleCentred.get_base_path :
    AccessPathModuleCentred → Option AccessPathModuleCentred
  | .RootPath _ => none
  | .ReturnPath p => some p
  | .FieldAccPath p _ => some p
  | .ParamPath p _ => some p
  | .InstancePath p => some p

/-- Derived `Debug` formatting of `FieldNameType`, as produced by the
`{:?}` format specifier in the `Display` impl. -/
def FieldNameType.debugFmt : FieldNameType → List Char
  | .StringField f => strL "StringField(\"" ++ f ++ strL "\")"
  | .IndexField n => strL "IndexField(" ++ natChars n ++ strL ")"

/-- Model of `impl Display for AccessPathModuleCentred` (src/module_reps.rs):
the string encoding of an access path. -/
def AccessPathModuleCentred.display : AccessPathModuleCentred → List Char
  | .RootPath m => strL "(module " ++ m ++ strL ")"
  | .ReturnPath p => strL "(return " ++ p.display ++ strL ")"
  | .FieldAccPath p f => strL "(member " ++ f.debugFmt ++ strL " " ++ p.display ++ strL ")"
  | .ParamPath p i => strL "(param " ++ natChars i ++ strL " " ++ p.display ++ strL ")"
  | .InstancePath p => strL "(new " ++ p.display ++ strL ")"

/-- Fuel-based model of `impl FromStr for AccessPathModuleCentred`
(src/module_reps.rs): the four `replace` calls, then the suffix test and the
prefix-directed branches, in source order. -/
def fromStrFuel : Nat → List Char → Option AccessPathModuleCentred
  | 0, _ => none
  | fuel + 1, s0 =>
      let s1 := replaceL (strL "(\"") [] s0
      let s2 := replaceL (strL "\")") [] s1
      let s3 := replaceL (strL "StringField") [] s2
      let s := replaceL (strL "IndexField") [] s3
      if endsWithChar ')' s then
        let s := s.take (s.length - 1)
        if startsWithL (strL "(module ") s then
          match (splitOnL (strL "(module ") s).get? 1 with
          | some m => some (.RootPath m)
          | none => none
        else if startsWithL (strL "(member exports (module ") s then
          let s := s.take (s.length - 1)
          match (splitOnL (strL "(member exports (module ") s).get? 1 with
          | some m => some (.RootPath m)
          | none => none
        else if startsWithL (strL "(return ") s then
          let rest := intercalateL (strL "(return ") ((splitOnL (strL "(return ") s).drop 1)
          (fromStrFuel fuel rest).map .ReturnPath
        else if startsWithL (strL "(member ") s then
          match (splitOnL (strL " ") s).get? 1 with
          | some memberName =>
              let fieldName :=
                match parseUsize memberName with
                | some v => FieldNameType.IndexField v
                | none => FieldNameType.StringField memberName
              let rest := intercalateL (strL " ") ((splitOnL (strL " ") s).drop 2)
              (fromStrFuel fuel rest).map (fun p => .FieldAccPath p fieldName)
          | none => none
        else if startsWithL (strL "(parameter ") s then
          match (splitOnL (strL " ") s).get? 1 with
          | some tok =>
              match parseUsize tok with
              | some v =>
                  let rest := intercalateL (strL " ") ((splitOnL (strL " ") s).drop 2)
                  (fromStrFuel fuel rest).map (fun p => .ParamPath p v)
              | none => none
          | none => none
        else if startsWithL (strL "(new ") s then
          let rest := intercalateL (strL "(new ") ((splitOnL (strL "(new ") s).drop 1)
          (fromStrFuel fuel rest).map .InstancePath
        else none
      else none

/-- Model of `AccessPathModuleCentred::from_str` (src/module_reps.rs); the
fuel exceeds the recursion depth, which strips at least five characters of
input per level. -/
def AccessPathModuleCentred.from_str (s : List Char) : Option AccessPathModuleCentred :=
  fromStrFuel (s.length + 1) s

/-- Image of `displayStage1` under the second `replace` (erasing the
double-quote-then-closing-parenthesis pattern); only meaningful on the
`roundTrippable` class. -/
def displayStage2 : AccessPathModuleCentred → List Char
  | .RootPath m => strL "(module " ++ m ++ strL ")"
  | .ReturnPath p => strL "(return " ++ displayStage2 p ++ strL ")"
  | .FieldAccPath p (.StringField f) =>
      strL "(member StringField" ++ f ++ strL " " ++ displayStage2 p ++ strL ")"
  | .FieldAccPath _ (.IndexField _) => []
  | .ParamPath _ _ => []
  | .InstancePath p => strL "(new " ++ displayStage2 p ++ strL ")"

/-- Name characters that do not interfere with the s-expression grammar. -/
def plainChar (c : Char) : Bool :=
  !(c == '(' || c == ')' || c == ' ' || c == '"')

/-- Identifier-like name: nonempty, grammar-safe characters, not parseable as
a `usize`, and not containing the two debug-format words erased by the
`replace` calls. -/
def plainName (s : List Char) : Bool :=
  !s.isEmpty && s.all plainChar &&
    (parseUsize s).isNone &&
    !hasInfix (strL "StringField") s && !hasInfix (strL "IndexField") s

/-- Module-name wellformedness (digit-only module names are fine, since the
root branch does not parse numbers). -/
def plainModName (s : List Char) : Bool :=
  !s.isEmpty && s.all plainChar &&
    !hasInfix (strL "StringField") s && !hasInfix (strL "IndexField") s

/-- Does the access path end (at the inside) in the module root? -/
def AccessPathModuleCentred.isRoot : AccessPathModuleCentred → Bool
  | .RootPath _ => true
  | _ => false

/-- Class of access paths on which encode/decode round-trips: built from
`RootPath`, `ReturnPath`, `InstancePath` and string-named `FieldAccPath`
with identifier-like names, excluding the field name `exports` directly on a
root (which collides with the `(member exports (module ...))` decode branch),
and excluding `ParamPath` and index fields (whose encodings `from_str`
cannot read back). -/
def roundTrippable : AccessPathModuleCentred → Bool
  | .RootPath m => plainModName m
  | .ReturnPath p => roundTrippable p
  | .FieldAccPath p (.StringField f) =>
      plainName f && !(f == strL "exports" && p.isRoot) && roundTrippable p
  | .FieldAccPath _ (.IndexField _) => false
  | .ParamPath _ _ => false
  | .InstancePath p => roundTrippable p

/-! ## Values, callbacks and signatures (src/functions.rs)

The Rust types `ArgVal`, `CallbackVal`, `Callback`, `FunctionArgument` and
`FunctionSignature` are mutually recursive (a callback value carries a
signature whose arguments can again carry values), so they are modelled as a
mutual family of single-constructor/variant inductives, with the structure
fields recovered by accessor functions. -/

mutual
/-- Model of `ArgVal` (src/functions.rs; the `Null` and `Bool` variants are
referenced by src/decisions.rs and src/mined_seed_reps.rs). -/
inductive ArgVal where
  | Number (s : List Char)
  | String (s : List Char)
  | Array (s : List Char)
  | Object (s : List Char)
  | Callback (cbv : CallbackVal)
  | LibFunction (s : List Char)
  | Variable (s : List Char)
  | Null
  | Bool (s : List Char)

/-- Model of `CallbackVal` (src/functions.rs). -/
inductive CallbackVal where
  | Var (s : List Char)
  | RawCallback (cb : Callback)

/-- Model of `Callback` (src/functions.rs): signature, optional unique id,
optional argument position. -/
inductive Callback where
  | mk (sig : FunctionSignature) (cb_id : Option (List Char)) (cb_arg_pos : Option Nat)

/-- Model of `FunctionArgument` (src/functions.rs): type and optional value. -/
inductive FunctionArgument where
  | mk (arg_type : ArgType) (arg_val : Option ArgVal)

/-- Model of `FunctionSignature` (src/functions.rs): argument list, optional
observed call result, spread-args flag. -/
inductive FunctionSignature where
  | mk (arg_list : List FunctionArgument) (call_test_result : Option FunctionCallResult)
      (is_spread_args : Bool)
end

/-- Accessor for `Callback.sig`. -/
def Callback.sig : Callback → FunctionSignature
  | .mk s _ _ => s

/-- Accessor for `Callback.cb_arg_pos`. -/
def Callback.cb_arg_pos : Callback → Option Nat
  | .mk _ _ p => p

/-- Accessor for `FunctionArgument.arg_type`. -/
def FunctionArgument.arg_type : FunctionArgument → ArgType
  | .mk t _ => t

/-- Accessor for `FunctionArgument.arg_val`. -/
def FunctionArgument.arg_val : FunctionArgument → Option ArgVal
  | .mk _ v => v

/-- Accessor for `FunctionSignature.arg_list`. -/
def FunctionSignature.arg_list : FunctionSignature → List FunctionArgument
  | .mk l _ _ => l

/-- Model of `FunctionArgument::is_callback` (src/functions.rs). -/
def FunctionArgument.is_callback (a : FunctionArgument) : Bool :=
  a.arg_type == ArgType.CallbackType

/-- Index-tracking worker for `FunctionSignature::get_callback_positions`. -/
def callbackPositionsAux : Nat → List FunctionArgument → List Nat
  | _, [] => []
  | pos, a :: rest =>
      if a.is_callback then pos :: callbackPositionsAux (pos + 1) rest
      else callbackPositionsAux (pos + 1) rest

/-- Model of `FunctionSignature::get_callback_positions` (src/functions.rs). -/
def FunctionSignature.get_callback_positions (sig : FunctionSignature) : List Nat :=
  callbackPositionsAux 0 sig.arg_list

/-- Model of `FunctionSignature::has_cb_arg` (src/functions.rs). -/
def FunctionSignature.has_cb_arg (sig : FunctionSignature) : Bool :=
  sig.arg_list.any (fun a => a.is_callback)

/-- Model of `Callback::get_cb_arg_name_base` (src/code_gen.rs). -/
def Callback.get_cb_arg_name_base (cb : Callback) (context_uniq_id : Option (List Char)) :
    List Char :=
  strL "cb_" ++
    (match context_uniq_id with
     | some id => id
     | none => []) ++
    (match cb.cb_arg_pos with
     | some id => strL "_" ++ natChars id
     | none => []) ++
    strL "_arg_"

/-- Index-tracking worker for `Callback::get_all_cb_args_vals`: one variable
name per parameter of the callback signature. -/
def cbArgNamesAux (base : List Char) : Nat → List FunctionArgument → List ArgVal
  | _, [] => []
  | pos, _ :: rest => ArgVal.Variable (base ++ natChars pos) :: cbArgNamesAux base (pos + 1) rest

/-- Model of `Callback::get_all_cb_args_vals` (src/functions.rs). -/
def Callback.get_all_cb_args_vals (cb : Callback) (context_uniq_id : List Char) : List ArgVal :=
  cbArgNamesAux (cb.get_cb_arg_name_base (some context_uniq_id)) 0 cb.sig.arg_list

/-- Model of `FunctionSignature::get_all_cb_args_vals` (src/functions.rs):
merge the parameter lists of all arguments whose value is a raw callback. -/
def FunctionSignature.get_all_cb_args_vals (sig : FunctionSignature)
    (context_uniq_id : List Char) : List ArgVal :=
  (sig.arg_list.map (fun arg =>
    match arg.arg_val with
    | some (ArgVal.Callback (CallbackVal.RawCallback cb)) =>
        cb.get_all_cb_args_vals context_uniq_id
    | _ => [])).flatten

/-! ## Errors (src/errors.rs) -/

/-- Model of `TestGenError` (src/errors.rs). -/
inductive TestGenError where
  | ArgTypeValMismatch
  | ArgValNotSetYet
  deriving DecidableEq, Repr

/-- Model of `DFError` (src/errors.rs). -/
inductive DFError where
  | SpecFileError
  | MinedDataFileError
  | InvalidMinedData (msg : List Char)
  | WritingTestError (path : List Char)
  | DeletingTestError (path : List Char)
  | TestRunningError
  | TestOutputParseError
  | InvalidTestExtensionOption
  | TestGenError (e : TestGenError)
  deriving DecidableEq, Repr

/-- Rust panics (assertion failures and out-of-range indexing/`gen_range`)
are modelled as this error type. -/
inductive Panic where
  | assertionFailed
  | emptyRangePanic
  | indexPanic
  deriving DecidableEq, Repr

/-! ## Module registry (src/module_reps.rs) -/

/-- Model of `ModuleFunction` (src/module_reps.rs); the `HashSet` of
signatures is modelled as a list. -/
inductive ModuleFunction where
  | mk (name : List Char) (sigs : List FunctionSignature) (num_api_args : Option Nat)

/-- Accessor for `ModuleFunction.sigs`. -/
def ModuleFunction.sigs : ModuleFunction → List FunctionSignature
  | .mk _ s _ => s

/-- Accessor for `ModuleFunction.num_api_args`. -/
def ModuleFunction.num_api_args : ModuleFunction → Option Nat
  | .mk _ _ n => n

/-- The `fns` map of `NpmModule` (src/module_reps.rs), modelled as a function
from keys to optional entries (a `HashMap` up to iteration order). -/
abbrev Registry : Type :=
  AccessPathModuleCentred × List Char → Option ModuleFunction

/-- The arity heuristic used when registering dynamically discovered
functions: `then` and `catch` get one argument, everything else is unknown. -/
def discoveredArity (name : List Char) : Option Nat :=
  if name == strL "then" || name == strL "catch" then some 1 else none

/-- Model of `NpmModule::add_fcts_rooted_in_ret_vals` (src/module_reps.rs):
for every access path and every listed function name, insert a fresh
`ModuleFunction` with empty signature set under key `(path, name)`
(`HashMap::insert`, which replaces any existing entry). -/
def add_fcts_rooted_in_ret_vals (fns : Registry)
    (accpath_fct_props : List (AccessPathModuleCentred × List (List Char))) : Registry :=
  accpath_fct_props.foldl
    (fun fns1 entry =>
      entry.2.foldl
        (fun fns2 name =>
          Function.update fns2 (entry.1, name)
            (some (ModuleFunction.mk name [] (discoveredArity name))))
        fns1)
    fns

/-! ## JSON traces (serde_json values, as consumed by src/tests.rs) -/

/-- Model of `serde_json::Value`; object entries are kept in a list (key
order is irrelevant for the single-entry marker records the diagnostics
compare against). -/
inductive Json where
  | null
  | bool (b : Bool)
  | num (n : Int)
  | str (s : List Char)
  | arr (elems : List Json)
  | obj (entries : List (List Char × Json))

mutual
/-- Structural equality of JSON values (the `==` used by
`diagnose_test_correctness` when searching for marker records). -/
def jsonBeq : Json → Json → Bool
  | .null, .null => true
  | .bool a, .bool b => a == b
  | .num a, .num b => a == b
  | .str a, .str b => a == b
  | .arr xs, .arr ys => jsonBeqList xs ys
  | .obj xs, .obj ys => jsonBeqEntries xs ys
  | _, _ => false

/-- Pointwise equality of JSON arrays. -/
def jsonBeqList : List Json → List Json → Bool
  | [], [] => true
  | x :: xs, y :: ys => jsonBeq x y && jsonBeqList xs ys
  | _, _ => false

/-- Pointwise equality of JSON object entry lists. -/
def jsonBeqEntries : List (List Char × Json) → List (List Char × Json) → Bool
  | [], [] => true
  | e1 :: xs, e2 :: ys => e1.1 == e2.1 && jsonBeq e1.2 e2.2 && jsonBeqEntries xs ys
  | _, _ => false
end

/-- Decimal representation of an integer. -/
def intChars (i : Int) : List Char :=
  if i < 0 then '-' :: natChars i.natAbs else natChars i.toNat

mutual
/-- Model of `serde_json::Value::to_string()` (compact serialization; string
escaping is not modelled, the marker payloads are numeric). -/
def jsonToString : Json → List Char
  | .null => strL "null"
  | .bool b => if b then strL "true" else strL "false"
  | .num n => intChars n
  | .str s => strL "\"" ++ s ++ strL "\""
  | .arr xs => strL "[" ++ jsonToStringList xs ++ strL "]"
  | .obj xs => strL "\x7b" ++ jsonToStringEntries xs ++ strL "\x7d"

/-- Comma-joined serialization of array elements. -/
def jsonToStringList : List Json → List Char
  | [] => []
  | [x] => jsonToString x
  | x :: y :: rest => jsonToString x ++ strL "," ++ jsonToStringList (y :: rest)

/-- Comma-joined serialization of object entries. -/
def jsonToStringEntries : List (List Char × Json) → List Char
  | [] => []
  | [e] => strL "\"" ++ e.1 ++ strL "\":" ++ jsonToString e.2
  | e :: f :: rest =>
      strL "\"" ++ e.1 ++ strL "\":" ++ jsonToString e.2 ++ strL "," ++
        jsonToStringEntries (f :: rest)
end

/-- Model of `serde_json` `Value` indexing `r[key]`: the entry value on
objects, `Null` on missing keys and non-objects. -/
def jsonIndex (r : Json) (key : List Char) : Json :=
  match r with
  | .obj entries =>
      match entries.find? (fun e => e.1 == key) with
      | some e => e.2
      | none => .null
  | _ => .null

/-- Model of `Value::is_null`. -/
def jsonIsNull : Json → Bool
  | .null => true
  | _ => false

/-- The record `json!("<tag>": true)` used for the `done_` and `error_`
markers. -/
def tagMarker (tag : List Char) : Json :=
  Json.obj [(tag, Json.bool true)]

/-! ## Diagnostic engine (src/tests.rs, `diagnose_test_correctness`) -/

/-- Worker for the callback scan of `diagnose_test_correctness`: iterate over
the enumerated records, remembering the position and stringified payload of
the last record carrying a non-null `callback_exec_<id>` key. -/
def callbackScanAux (key : List Char) :
    Nat → List Json → Option Nat × Option (List Char) → Option Nat × Option (List Char)
  | _, [], st => st
  | i, r :: rest, st =>
      let k := jsonIndex r key
      callbackScanAux key (i + 1) rest
        (if !(jsonIsNull k) then (some i, some (jsonToString k)) else st)

/-- The `(callback_pos, cb_arg_pos)` pair computed by the scan loop of
`diagnose_test_correctness` (src/tests.rs). -/
def callbackScan (output_vec : List Json) (fc_id : List Char) :
    Option Nat × Option (List Char) :=
  callbackScanAux (strL "callback_exec_" ++ fc_id) 0 output_vec (none, none)

/-- Position of the first record equal to the `done_<id>` marker. -/
def donePosOf (output_vec : List Json) (fc_id : List Char) : Option Nat :=
  output_vec.findIdx? (fun r => jsonBeq r (tagMarker (strL "done_" ++ fc_id)))

/-- Is some record equal to the `error_<id>` marker? -/
def hasErrorMarker (output_vec : List Json) (fc_id : List Char) : Bool :=
  output_vec.any (fun r => jsonBeq r (tagMarker (strL "error_" ++ fc_id)))

/-- Per-node result of `diagnose_test_correctness` (src/tests.rs): the
classification and callback-argument position recorded for the node with
unique id `fc_id` (an error marker yields `ExecutionError` with no
position). -/
def diagnose_node (output_vec : List Json) (fc_id : List Char) :
    FunctionCallResult × Option (List Char) :=
  if hasErrorMarker output_vec fc_id then
    (FunctionCallResult.ExecutionError, none)
  else
    let done_pos := donePosOf output_vec fc_id
    let scanned := callbackScan output_vec fc_id
    (match done_pos, scanned.1 with
     | some done_index, some callback_index =>
         if done_index < callback_index then
           FunctionCallResult.SingleCallback SingleCallCallbackTestResult.CallbackCalledAsync
         else
           FunctionCallResult.SingleCallback SingleCallCallbackTestResult.CallbackCalledSync
     | some _, none =>
         FunctionCallResult.SingleCallback SingleCallCallbackTestResult.NoCallbackCalled
     | none, _ => FunctionCallResult.ExecutionError,
     scanned.2)

/-- Strings of a JSON array, as extracted by
`get_function_props_for_acc_paths` (non-strings are dropped). -/
def jsonStringsOf (vals : List Json) : List (List Char) :=
  vals.filterMap (fun v =>
    match v with
    | Json.str s => some s
    | _ => none)

/-- Replace-or-append insertion into an association list with unique keys
(the `HashMap::insert` of `ret_map` in `get_function_props_for_acc_paths`). -/
def insertReplace (m : List (AccessPathModuleCentred × List (List Char)))
    (k : AccessPathModuleCentred) (v : List (List Char)) :
    List (AccessPathModuleCentred × List (List Char)) :=
  if m.any (fun e => e.1 == k) then
    m.map (fun e => if e.1 == k then (k, v) else e)
  else
    m ++ [(k, v)]

/-- Association-list lookup (the `HashMap` read side). -/
def lookupAP (m : List (AccessPathModuleCentred × List (List Char)))
    (k : AccessPathModuleCentred) : Option (List (List Char)) :=
  (m.find? (fun e => e.1 == k)).map (fun e => e.2)

/-- One entry step of `get_function_props_for_acc_paths`: insert the string
payload under the decoded access path when the key decodes and the value is
an array, otherwise leave the map unchanged. -/
def propsStep (rm : List (AccessPathModuleCentred × List (List Char)))
    (e : List Char × Json) : List (AccessPathModuleCentred × List (List Char)) :=
  match AccessPathModuleCentred.from_str e.1 with
  | some acc_path_rep =>
      match e.2 with
      | Json.arr val_vec => insertReplace rm acc_path_rep (jsonStringsOf val_vec)
      | _ => rm
  | none => rm

/-- Processing of the entries of one record object by
`get_function_props_for_acc_paths`. -/
def propsOfEntries (rm : List (AccessPathModuleCentred × List (List Char))) :
    List (List Char × Json) → List (AccessPathModuleCentred × List (List Char))
  | [] => rm
  | e :: rest =>
      propsOfEntries
        (match AccessPathModuleCentred.from_str e.1 with
         | some acc_path_rep =>
             match e.2 with
             | Json.arr val_vec => insertReplace rm acc_path_rep (jsonStringsOf val_vec)
             | _ => rm
         | none => rm)
        rest

/-- Model of `get_function_props_for_acc_paths` (src/tests.rs): scan every
record object for keys that decode as access paths with array values. -/
def get_function_props_for_acc_paths (output_vec : List Json) :
    List (AccessPathModuleCentred × List (List Char)) :=
  output_vec.foldl
    (fun ret_map val =>
      match val with
      | Json.obj m => propsOfEntries ret_map m
      | _ => ret_map)
    []

/-- All object entries of a trace, in record order (used to state which
entry of the trace wins for a given decoded access path). -/
def traceEntries (output_vec : List Json) : List (List Char × Json) :=
  (output_vec.map (fun v =>
    match v with
    | Json.obj m => m
    | _ => [])).flatten

/-- The array payloads of the trace entries whose key decodes to `p`. -/
def relevantPayloadsFor (output_vec : List Json) (p : AccessPathModuleCentred) :
    List (List Json) :=
  (traceEntries output_vec).filterMap (fun e =>
    if AccessPathModuleCentred.from_str e.1 == some p then
      match e.2 with
      | Json.arr val_vec => some val_vec
      | _ => none
    else none)

/-! ## Test tree (src/tests.rs)

The `indextree::Arena` is modelled as the list of nodes in insertion order:
the node in slot `k` (0-based) has `NodeId` `k + 1` (indextree ids are
1-based), nodes are never removed, and `Test::extend` only ever appends.
Only the `FunctionCall` fields used by the unique-id computation and the
scope query are carried. -/

/-- Per-node data of a `FunctionCall` relevant to `get_uniq_id_for_call` and
`get_ret_values_accessible_from_ext_point`: `parent_call_id`,
`parent_arg_position_nesting` and `acc_path` (src/tests.rs). -/
inductive FCNode where
  | mk (parent_call_id : Option (List Char))
      (parent_arg_position_nesting : Option (List Char))
      (acc_path : Option AccessPathModuleCentred)

/-- Accessor for `FCNode.parent_call_id`. -/
def FCNode.parent_call_id : FCNode → Option (List Char)
  | .mk p _ _ => p

/-- Accessor for `FCNode.parent_arg_position_nesting`. -/
def FCNode.parent_arg_position_nesting : FCNode → Option (List Char)
  | .mk _ p _ => p

/-- Accessor for `FCNode.acc_path`. -/
def FCNode.acc_path : FCNode → Option AccessPathModuleCentred
  | .mk _ _ a => a

/-- Model of a `Test` (src/tests.rs): the arena in insertion order plus the
module import variable name used to build return-value variable names. -/
inductive TestModel where
  | mk (fct_tree : List FCNode) (mod_js_var_name : List Char)

/-- Accessor for `TestModel.fct_tree`. -/
def TestModel.fct_tree : TestModel → List FCNode
  | .mk t _ => t

/-- Accessor for `TestModel.mod_js_var_name`. -/
def TestModel.mod_js_var_name : TestModel → List Char
  | .mk _ m => m

/-- Model of `Test::get_uniq_id_for_call` (src/tests.rs) for the node with
`NodeId` `node_id`: the id string is the node id, then `_pcid<parent id>` if
nested, then `_pos<arg position>` if nested. -/
def uniq_id_of (node : FCNode) (node_id : Nat) : List Char :=
  natChars node_id ++
    (match node.parent_call_id with
     | some pcid => strL "_pcid" ++ pcid
     | none => []) ++
    (match node.parent_arg_position_nesting with
     | some pos => strL "_pos" ++ pos
     | none => [])

/-- The arena traversal of `fct_tree.iter()` paired with each node's unique
id and access path; `k` is the `NodeId` of the first listed node. -/
def nodesWithIds : Nat → List FCNode → List (List Char × Option AccessPathModuleCentred)
  | _, [] => []
  | k, n :: rest => (uniq_id_of n k, n.acc_path) :: nodesWithIds (k + 1) rest

/-- Model of `ArgValAPTracked` (src/functions.rs). -/
inductive ArgValAPTracked where
  | mk (val : ArgVal) (acc_path : Option AccessPathModuleCentred)

/-- Accessor for `ArgValAPTracked.val`. -/
def ArgValAPTracked.val : ArgValAPTracked → ArgVal
  | .mk v _ => v

/-- Model of `Test::get_ret_values_accessible_from_ext_point` (src/tests.rs)
at the extension node in arena slot `ext_pos` (0-based): keep the nodes whose
unique id sorts strictly before the extension node's id, is not a prefix of
it, and contains no underscore; each yields a `ret_val_...` variable tagged
with the `ReturnPath` of the node's access path.  (The source `unwrap`s the
extension node; callers pass a valid slot.) -/
def TestModel.get_ret_values_accessible_from_ext_point
    (t : TestModel) (ext_pos : Nat) : List ArgValAPTracked :=
  match t.fct_tree.get? ext_pos with
  | none => []
  | some ext_node =>
      let ext_node_uniq_id := uniq_id_of ext_node (ext_pos + 1)
      let ret_base_var_name := strL "ret_val_" ++ t.mod_js_var_name
      ((nodesWithIds 1 t.fct_tree).filter (fun e =>
        lexLt e.1 ext_node_uniq_id && !startsWithL e.1 ext_node_uniq_id &&
          e.1.count '_' == 0)).map
        (fun e =>
          match e.2 with
          | some fct_acc_path_rep =>
              ArgValAPTracked.mk
                (ArgVal.Variable (ret_base_var_name ++ strL "_" ++ e.1))
                (some (AccessPathModuleCentred.ReturnPath fct_acc_path_rep))
          | none =>
              ArgValAPTracked.mk
                (ArgVal.Variable (ret_base_var_name ++ strL "_" ++ e.1))
                none)

/-- Sequential extension step of `Test::extend` (src/tests.rs) as it affects
the arena: `new_node` is created with no parent linkage fields and appended
(slot `fct_tree.length`, `NodeId` `length + 1`). -/
def TestModel.extend_sequential (t : TestModel)
    (new_acc_path : Option AccessPathModuleCentred) : TestModel :=
  TestModel.mk (t.fct_tree ++ [FCNode.mk none none new_acc_path]) t.mod_js_var_name

/-- Nested extension step of `Test::extend` (src/tests.rs) as it affects the
arena: the new node's `parent_call_id` is the extension node's `NodeId`
string and `parent_arg_position_nesting` is the pool's callback argument
position. -/
def TestModel.extend_nested (t : TestModel) (ext_pos : Nat)
    (cb_arg_pos : Option (List Char))
    (new_acc_path : Option AccessPathModuleCentred) : TestModel :=
  TestModel.mk
    (t.fct_tree ++ [FCNode.mk (some (natChars (ext_pos + 1))) cb_arg_pos new_acc_path])
    t.mod_js_var_name

/-! ## Decision engine pool (src/decisions.rs) -/

/-- Pool entries of `possible_ext_points`: extension type with the test, the
optional extension node and the optional callback argument position. -/
abbrev PoolEntry : Type :=
  ExtensionType × (TestModel × Option Nat × Option (List Char))

/-- Model of `TestGenDB::add_extension_point` (src/decisions.rs): push one
entry. -/
def add_extension_point (pool : List PoolEntry) (ext_type : ExtensionType)
    (test_id : TestModel × Option Nat × Option (List Char)) : List PoolEntry :=
  pool ++ [(ext_type, test_id)]

/-- Model of `TestGenDB::add_extension_points_for_test` (src/decisions.rs):
nothing is added when any diagnosed result is an execution error; otherwise
each extension point is added for each extension type its result admits.
The `HashMap` of results is modelled as a list of
`(node id, (result, callback arg position))` entries. -/
def add_extension_points_for_test (pool : List PoolEntry) (test : TestModel)
    (ext_point_results : List (Nat × FunctionCallResult × Option (List Char))) :
    List PoolEntry :=
  if ext_point_results.any (fun e => e.2.1 == FunctionCallResult.ExecutionError) then
    pool
  else
    ext_point_results.foldl
      (fun pool1 e =>
        ExtensionType.iter.foldl
          (fun pool2 ext_type =>
            if e.2.1.can_be_extended ext_type then
              add_extension_point pool2 ext_type (test, some e.1, e.2.2)
            else pool2)
          pool1)
      pool

/-! ## Random value generation (src/decisions.rs)

Random draws are modelled as explicit oracle parameters; `gen_range(0..n)`
applied to a draw is `draw % n` (and a panic when `n = 0`). -/

/-- Model of `TestGenDB::choose_random_arg_type` (src/decisions.rs),
including its `assert!(!(allow_cbs && !allow_any))` (note that the assert
contradicts the doc comment above it, which says allow_any needs allow_cbs). -/
def choose_random_arg_type (allow_cbs allow_any : Bool) (draw : Nat) :
    Except Panic ArgType :=
  if allow_cbs && !allow_any then Except.error Panic.assertionFailed
  else
    let num_arg_types := 4
    let max_arg_type_count :=
      num_arg_types + (if allow_cbs then (if allow_any then 3 else 2) else 0)
    Except.ok
      (match draw % max_arg_type_count with
       | 0 => ArgType.NumberType
       | 1 => ArgType.StringType
       | 2 => ArgType.ArrayType
       | 3 => ArgType.ObjectType
       | 4 => ArgType.CallbackType
       | 5 => ArgType.LibFunctionType
       | _ => ArgType.AnyType)

/-- The `ArgType::AnyType` arm of the match in
`TestGenDB::gen_random_value_of_type` (src/decisions.rs): draw an index into
the concatenation of the two pools (empty concatenation makes `gen_range`
panic, and an out-of-range `get` would make the `unwrap` panic). -/
def anyTypeArm (ret_vals_pool : List ArgValAPTracked) (cb_arg_vals_pool : List ArgVal)
    (idx_draw : Nat) : Except Panic ArgVal :=
  if ret_vals_pool.length + cb_arg_vals_pool.length = 0 then
    Except.error Panic.emptyRangePanic
  else
    let rand_index := idx_draw % (ret_vals_pool.length + cb_arg_vals_pool.length)
    if rand_index < ret_vals_pool.length then
      match (ret_vals_pool.map ArgValAPTracked.val).get? rand_index with
      | some v => Except.ok v
      | none => Except.error Panic.indexPanic
    else
      match cb_arg_vals_pool.get? (rand_index - ret_vals_pool.length) with
      | some v => Except.ok v
      | none => Except.error Panic.indexPanic

/-- Model of `TestGenDB::gen_random_value_of_type` (src/decisions.rs) for a
request of type `AnyType`: the initial `let arg_type = match ...` keeps
`AnyType` when the pools are non-empty and otherwise falls back to
`choose_random_arg_type(true, false)`; the subsequent match dispatches to
the `AnyType` arm, or to the arms for the concrete types, which are
irrelevant to this request and abstracted as the `concrete_arm` parameter. -/
def gen_random_value_of_type_any (concrete_arm : ArgType → Except Panic ArgVal)
    (ret_vals_pool : List ArgValAPTracked) (cb_arg_vals_pool : List ArgVal)
    (fallback_draw idx_draw : Nat) : Except Panic ArgVal :=
  let arg_type : Except Panic ArgType :=
    if ret_vals_pool.length + cb_arg_vals_pool.length > 0 then
      Except.ok ArgType.AnyType
    else
      choose_random_arg_type true false fallback_draw
  match arg_type with
  | Except.error e => Except.error e
  | Except.ok ArgType.AnyType => anyTypeArm ret_vals_pool cb_arg_vals_pool idx_draw
  | Except.ok other => concrete_arm other

/-! ## Mined nesting data (src/mined_seed_reps.rs) -/

/-- Model of `MinedParam` (src/mined_seed_reps.rs). -/
inductive MinedParam where
  | mk (ident : Option (List Char)) (callback : Option (List Char))
      (object : Option (List Char))

/-- Accessor for `MinedParam.ident`. -/
def MinedParam.ident : MinedParam → Option (List Char)
  | .mk i _ _ => i

/-- Accessor for `MinedParam.callback`. -/
def MinedParam.callback : MinedParam → Option (List Char)
  | .mk _ c _ => c

/-- Accessor for `MinedParam.object`. -/
def MinedParam.object : MinedParam → Option (List Char)
  | .mk _ _ o => o

/-- Model of `MinedParam::is_valid` (src/mined_seed_reps.rs). -/
def MinedParam.is_valid (p : MinedParam) : Bool :=
  match p.ident, p.callback, p.object with
  | some _, none, none => true
  | none, some _, none => true
  | none, none, some _ => true
  | _, _, _ => false

/-- Debug formatting of an optional string, for `MinedParam`'s `Display`. -/
def dbgOptStr : Option (List Char) → List Char
  | none => strL "None"
  | some s => strL "Some(\"" ++ s ++ strL "\")"

/-- Model of `impl Display for MinedParam` (src/mined_seed_reps.rs). -/
def MinedParam.to_string (p : MinedParam) : List Char :=
  strL "ident: " ++ dbgOptStr p.ident ++ strL ", object: " ++ dbgOptStr p.object ++
    strL ", callback: " ++ dbgOptStr p.callback

/-- Model of `MinedParam::get_arg_type` (src/mined_seed_reps.rs). -/
def MinedParam.get_arg_type (p : MinedParam) : Except DFError ArgType :=
  if !p.is_valid then Except.error (DFError.InvalidMinedData p.to_string)
  else
    Except.ok
      (if p.callback.isSome then ArgType.CallbackType
       else if p.object.isSome then ArgType.ObjectType
       else ArgType.AnyType)

/-- Model of `TryFrom<&MinedParam> for FunctionArgument`
(src/mined_seed_reps.rs): the mined type with no value. -/
def argFromMinedParam (p : MinedParam) : Except DFError FunctionArgument :=
  (p.get_arg_type).map (fun t => FunctionArgument.mk t none)

/-- Argument-list worker for `TryFrom<&Vec<MinedParam>> for
FunctionSignature`: the first invalid parameter aborts. -/
def argsFromMinedParams : List MinedParam → Except DFError (List FunctionArgument)
  | [] => Except.ok []
  | p :: rest =>
      match argFromMinedParam p with
      | Except.ok a => (argsFromMinedParams rest).map (fun l => a :: l)
      | Except.error e => Except.error e

/-- Model of `TryFrom<&Vec<MinedParam>> for FunctionSignature`
(src/mined_seed_reps.rs): `FunctionSignature::new(&arg_list, None)`. -/
def sigFromMinedParams (mined_params : List MinedParam) :
    Except DFError FunctionSignature :=
  (argsFromMinedParams mined_params).map
    (fun args => FunctionSignature.mk args none false)

/-- Model of `MinedNestingPairJSON` (src/mined_seed_reps.rs). -/
inductive MinedNestingPairJSON where
  | mk (outer_pkg : List Char) (outer_fct : List Char) (outer_params : List MinedParam)
      (inner_pkg : List Char) (inner_fct : List Char) (inner_params : List MinedParam)

/-- Accessor for `MinedNestingPairJSON.outer_fct`. -/
def MinedNestingPairJSON.outer_fct : MinedNestingPairJSON → List Char
  | .mk _ f _ _ _ _ => f

/-- Accessor for `MinedNestingPairJSON.outer_params`. -/
def MinedNestingPairJSON.outer_params : MinedNestingPairJSON → List MinedParam
  | .mk _ _ p _ _ _ => p

/-- Accessor for `MinedNestingPairJSON.inner_fct`. -/
def MinedNestingPairJSON.inner_fct : MinedNestingPairJSON → List Char
  | .mk _ _ _ _ f _ => f

/-- Accessor for `MinedNestingPairJSON.inner_params`. -/
def MinedNestingPairJSON.inner_params : MinedNestingPairJSON → List MinedParam
  | .mk _ _ _ _ _ p => p

/-- Model of `MinedNestingPairJSON::get_outer_pkg` (strip the quote
characters). -/
def MinedNestingPairJSON.get_outer_pkg : MinedNestingPairJSON → List Char
  | .mk op _ _ _ _ _ => replaceL (strL "\"") [] op

/-- Model of `MinedNestingPairJSON::get_inner_pkg` (strip the quote
characters). -/
def MinedNestingPairJSON.get_inner_pkg : MinedNestingPairJSON → List Char
  | .mk _ _ _ ip _ _ => replaceL (strL "\"") [] ip

/-- Model of the `outer_to_inner_dataflow` construction inside
`get_rel_mined_data_nested_extensions` (src/mined_seed_reps.rs): enumerate
the inner parameters; an `ident` of the shape `outer_arg_<k>` contributes the
pair `(k, position)`; a failing `parse::<usize>().unwrap()` (or a missing
underscore for `rsplit_once`) is a panic, modelled as `none`. -/
def minedDataflowAux : Nat → List MinedParam → Option (List (Nat × Nat))
  | _, [] => some []
  | pos, p :: rest =>
      match p.ident with
      | some var_name =>
          if startsWithL (strL "outer_arg_") var_name then
            match rsplitOnce '_' var_name with
            | some sp =>
                match parseUsize sp.2 with
                | some outer_pos =>
                    (minedDataflowAux (pos + 1) rest).map (fun l => (outer_pos, pos) :: l)
                | none => none
            | none => none
          else minedDataflowAux (pos + 1) rest
      | none => minedDataflowAux (pos + 1) rest

/-- Model of `MinedDataNestedExtension` (src/mined_seed_reps.rs). -/
inductive MinedDataNestedExtension where
  | mk (fct_name : List Char) (sig : FunctionSignature)
      (outer_to_inner_dataflow : List (Nat × Nat))

/-- Accessor for `MinedDataNestedExtension.fct_name`. -/
def MinedDataNestedExtension.fct_name : MinedDataNestedExtension → List Char
  | .mk f _ _ => f

/-- Accessor for `MinedDataNestedExtension.sig`. -/
def MinedDataNestedExtension.sig : MinedDataNestedExtension → FunctionSignature
  | .mk _ s _ => s

/-- Accessor for `MinedDataNestedExtension.outer_to_inner_dataflow`. -/
def MinedDataNestedExtension.outer_to_inner_dataflow :
    MinedDataNestedExtension → List (Nat × Nat)
  | .mk _ _ d => d

/-- Model of `FunctionCall` (src/tests.rs). -/
inductive FunctionCall where
  | mk (name : List Char) (sig : FunctionSignature)
      (parent_arg_position_nesting : Option (List Char))
      (parent_call_id : Option (List Char))
      (acc_path : Option AccessPathModuleCentred)
      (receiver : Option ArgVal)

/-- Accessor for `FunctionCall.name`. -/
def FunctionCall.name : FunctionCall → List Char
  | .mk n _ _ _ _ _ => n

/-- Accessor for `FunctionCall.sig`. -/
def FunctionCall.sig : FunctionCall → FunctionSignature
  | .mk _ s _ _ _ _ => s

/-- Replace the argument list of a signature (the in-place mutation of
`ret_call.sig.get_mut_args()`). -/
def FunctionSignature.with_args (sig : FunctionSignature)
    (args : List FunctionArgument) : FunctionSignature :=
  match sig with
  | .mk _ res spread => .mk args res spread

/-- The dataflow-wiring loop of the mined-data branch of
`TestGenDB::gen_random_call` (src/decisions.rs): for each pair
`(outer_pos, inner_pos)` with `outer_pos` within the outer callback's
argument list, overwrite `args[inner_pos]` with an `AnyType` argument whose
value is the outer callback argument; `args[inner_pos]` with `inner_pos` out
of range is an index panic, modelled as `none`. -/
def wireDataflow (outer_cb_args : List ArgVal) :
    List (Nat × Nat) → List FunctionArgument → Option (List FunctionArgument)
  | [], args => some args
  | fl :: rest, args =>
      if fl.1 < outer_cb_args.length then
        if fl.2 < args.length then
          wireDataflow outer_cb_args rest
            (args.set fl.2
              (FunctionArgument.mk ArgType.AnyType
                (some (outer_cb_args.getD fl.1 ArgVal.Null))))
        else none
      else wireDataflow outer_cb_args rest args

/-- Model of the mined-data nested-extension branch of
`TestGenDB::gen_random_call` (src/decisions.rs), from the point where a
mined nested extension has been chosen: the call is built from the mined
name and signature, its arguments are initialized with random values
(abstracted as the `init_args` parameter), and when the outer call has
exactly one callback position, the mined dataflow pairs are wired in and the
call is returned; otherwise the branch falls through to random generation
(`none` here). -/
def gen_mined_nested_call (ext_fct : FunctionCall) (ext_uniq_id : List Char)
    (nested_ext : MinedDataNestedExtension) (init_args : List FunctionArgument)
    (lib_name : List Char) : Option FunctionCall :=
  let fct_acc_path_rep :=
    AccessPathModuleCentred.FieldAccPath
      (AccessPathModuleCentred.RootPath lib_name)
      (FieldNameType.StringField nested_ext.fct_name)
  if ext_fct.sig.get_callback_positions.length == 1 then
    match wireDataflow (ext_fct.sig.get_all_cb_args_vals ext_uniq_id)
        nested_ext.outer_to_inner_dataflow init_args with
    | some wired =>
        some (FunctionCall.mk nested_ext.fct_name (nested_ext.sig.with_args wired)
          none none (some fct_acc_path_rep) none)
    | none => none
  else none

/-! ## Concrete artifacts used by counterexamples and witnesses -/

/-- A registry holding one function at `(module fs).f` with one recorded
signature (used to exhibit the non-idempotence of re-registration). -/
def exampleRegistry : Registry :=
  fun k =>
    if k = (AccessPathModuleCentred.RootPath (strL "fs"), strL "f") then
      some (ModuleFunction.mk (strL "f") [FunctionSignature.mk [] none false] none)
    else none

/-- The registry with no functions. -/
def emptyRegistry : Registry :=
  fun _ => none

/-- Example outer call for the mined-nesting scenario: an `fs.readFile`-like
call whose third argument is a raw callback (at position 2) with two
parameters. -/
def outerReadFileCall : FunctionCall :=
  FunctionCall.mk (strL "readFile")
    (FunctionSignature.mk
      [FunctionArgument.mk ArgType.StringType (some (ArgVal.String (strL "\"file\""))),
       FunctionArgument.mk ArgType.ObjectType (some (ArgVal.Object (strL "\x7b\x7d"))),
       FunctionArgument.mk ArgType.CallbackType
         (some (ArgVal.Callback (CallbackVal.RawCallback
           (Callback.mk
             (FunctionSignature.mk
               [FunctionArgument.mk ArgType.AnyType none,
                FunctionArgument.mk ArgType.AnyType none]
               none false)
             none (some 2)))))]
      none false)
    none none none none

/-- Example mined inner parameter list: one `ident` argument wired from the
outer callback's argument 1 (a `q.reject(err)`-like call). -/
def innerRejectParams : List MinedParam :=
  [MinedParam.mk (some (strL "outer_arg_1")) none none]

/-- The inner signature mined from `innerRejectParams`. -/
def innerRejectSig : FunctionSignature :=
  FunctionSignature.mk [FunctionArgument.mk ArgType.AnyType none] none false

/-- Example freshly-initialized arguments for the inner call (the value that
dataflow wiring must overwrite). -/
def innerRejectInitArgs : List FunctionArgument :=
  [FunctionArgument.mk ArgType.AnyType (some (ArgVal.Number (strL "0")))]

/-- The wired inner call produced by the mined-nesting branch on the example:
its only argument is the outer callback's argument variable at position 1. -/
def wiredRejectCall : FunctionCall :=
  FunctionCall.mk (strL "reject")
    (FunctionSignature.mk
      [FunctionArgument.mk ArgType.AnyType (some (ArgVal.Variable (strL "cb_5_2_arg_1")))]
      none false)
    none none
    (some (AccessPathModuleCentred.FieldAccPath
      (AccessPathModuleCentred.RootPath (strL "q"))
      (FieldNameType.StringField (strL "reject"))))
    none

/-- A nine-call sequential test (all top-level nodes), used to exhibit the
failure of scope monotonicity once node ids reach two digits. -/
def nineNodeTest : TestModel :=
  TestModel.mk
    (List.replicate 9
      (FCNode.mk none none (some (AccessPathModuleCentred.RootPath (strL "m")))))
    (strL "m")

/-! # Theorems -/

/-! ## Decimal representation lemmas -/

theorem digitChar_toNat_of_lt : ∀ d : Nat, d < 10 → (Nat.digitChar d).toNat = 48 + d := by
  decide

theorem digitChar_isDigit_of_lt : ∀ d : Nat, d < 10 → (Nat.digitChar d).isDigit = true := by
  decide

theorem natCharsAux_digits :
    ∀ fuel n, n < fuel → ∀ c ∈ natCharsAux fuel n, c.isDigit = true := by
  intro fuel
  induction fuel with
  | zero => intro n hn; omega
  | succ fuel ih =>
      intro n hn c hc
      by_cases h10 : n < 10
      · simp only [natCharsAux, if_pos h10, List.mem_singleton] at hc
        subst hc
        exact digitChar_isDigit_of_lt n h10
      · simp only [natCharsAux, if_neg h10, List.mem_append, List.mem_singleton] at hc
        rcases hc with hc | hc
        · have hdiv : n / 10 < n := Nat.div_lt_self (by omega) (by omega)
          exact ih (n / 10) (by omega) c hc
        · subst hc
          exact digitChar_isDigit_of_lt (n % 10) (Nat.mod_lt n (by omega))

theorem natChars_digits (n : Nat) : ∀ c ∈ natChars n, c.isDigit = true :=
  natCharsAux_digits (n + 1) n (Nat.lt_succ_self n)

theorem charsVal_append_one (a : List Char) (c : Char) :
    charsVal (a ++ [c]) = charsVal a * 10 + (c.toNat - 48) := by
  simp [charsVal, List.foldl_append]

theorem charsVal_natCharsAux : ∀ fuel n, n < fuel → charsVal (natCharsAux fuel n) = n := by
  intro fuel
  induction fuel with
  | zero => intro n hn; omega
  | succ fuel ih =>
      intro n hn
      by_cases h10 : n < 10
      · have : (Nat.digitChar n).toNat = 48 + n := digitChar_toNat_of_lt n h10
        simp [natCharsAux, if_pos h10, charsVal, this]
      · have hdiv : n / 10 < n := Nat.div_lt_self (by omega) (by omega)
        have hrec := ih (n / 10) (by omega)
        have hmod : (Nat.digitChar (n % 10)).toNat = 48 + n % 10 :=
          digitChar_toNat_of_lt (n % 10) (Nat.mod_lt n (by omega))
        rw [natCharsAux, if_neg h10, charsVal_append_one, hrec, hmod]
        omega

theorem charsVal_natChars (n : Nat) : charsVal (natChars n) = n :=
  charsVal_natCharsAux (n + 1) n (Nat.lt_succ_self n)

theorem natChars_injective {a b : Nat} (h : natChars a = natChars b) : a = b := by
  have := charsVal_natChars a
  rw [h, charsVal_natChars] at this
  omega

theorem natChars_single {n : Nat} (h : n < 10) : natChars n = [Nat.digitChar n] := by
  simp [natChars, natCharsAux, h]

theorem takeWhile_append_of_all {p : Char → Bool} :
    ∀ a b : List Char, (∀ c ∈ a, p c = true) →
      (a ++ b).takeWhile p = a ++ b.takeWhile p := by
  intro a
  induction a with
  | nil => intro b _; simp
  | cons c rest ih =>
      intro b h
      have hc : p c = true := h c (List.mem_cons_self c rest)
      simp only [List.cons_append, List.takeWhile_cons, hc, if_true]
      rw [ih b (fun x hx => h x (List.mem_cons_of_mem c hx))]

/-! ## C6: the extendability table -/

/-- Claim C6: `can_be_extended` is exactly the table from the spec: an
`ExecutionError` result is never extendable, `NoCallbackCalled` is
Sequential- but not Nested-extendable, and both callback-called results are
extendable both ways. -/
theorem can_be_extended_table :
    (∀ et, FunctionCallResult.ExecutionError.can_be_extended et = false) ∧
    (FunctionCallResult.SingleCallback SingleCallCallbackTestResult.NoCallbackCalled
        |>.can_be_extended ExtensionType.Nested) = false ∧
    (FunctionCallResult.SingleCallback SingleCallCallbackTestResult.NoCallbackCalled
        |>.can_be_extended ExtensionType.Sequential) = true ∧
    (∀ et,
      (FunctionCallResult.SingleCallback SingleCallCallbackTestResult.CallbackCalledSync
          |>.can_be_extended et) = true ∧
      (FunctionCallResult.SingleCallback SingleCallCallbackTestResult.CallbackCalledAsync
          |>.can_be_extended et) = true) := by
  refine ⟨?_, rfl, rfl, ?_⟩
  · intro et; cases et <;> rfl
  · intro et; cases et <;> exact ⟨rfl, rfl⟩

/-! ## C2: no extension points after an execution error -/

/-- Claim C2: if any node's diagnosed result is an `ExecutionError`, then
`add_extension_points_for_test` adds no extension point at all: the pool is
returned unchanged. -/
theorem add_extension_points_for_test_error_empty
    (pool : List PoolEntry) (test : TestModel)
    (ext_point_results : List (Nat × FunctionCallResult × Option (List Char)))
    (h : ∃ e ∈ ext_point_results, e.2.1 = FunctionCallResult.ExecutionError) :
    add_extension_points_for_test pool test ext_point_results = pool := by
  obtain ⟨e, he, hres⟩ := h
  unfold add_extension_points_for_test
  rw [if_pos]
  exact List.any_eq_true.mpr ⟨e, he, by simp [hres]⟩

/-- Witness for C2 at a concrete two-node result map with one error. -/
theorem add_extension_points_for_test_error_empty_witness :
    add_extension_points_for_test [] (TestModel.mk [] (strL "fs"))
      [(1, FunctionCallResult.SingleCallback SingleCallCallbackTestResult.CallbackCalledSync,
         none),
       (2, FunctionCallResult.ExecutionError, none)] = [] :=
  add_extension_points_for_test_error_empty _ _ _
    ⟨(2, FunctionCallResult.ExecutionError, none), by simp, rfl⟩

/-! ## C9: injectivity of the unique id strings -/

theorem uniq_id_of_takeWhile (node : FCNode) (i : Nat) :
    (uniq_id_of node i).takeWhile Char.isDigit = natChars i := by
  unfold uniq_id_of
  rw [List.append_assoc, takeWhile_append_of_all _ _ (natChars_digits i)]
  have hsfx :
      ((match node.parent_call_id with
        | some pcid => strL "_pcid" ++ pcid
        | none => []) ++
       (match node.parent_arg_position_nesting with
        | some pos => strL "_pos" ++ pos
        | none => [])).takeWhile Char.isDigit = [] := by
    cases hp : node.parent_call_id with
    | some pcid =>
        rw [show strL "_pcid" = '_' :: strL "pcid" from rfl]
        simp
    | none =>
        cases hq : node.parent_arg_position_nesting with
        | some pos =>
            rw [show strL "_pos" = '_' :: strL "pos" from rfl]
            simp
        | none => simp
  rw [hsfx, List.append_nil]

/-- Claim C9: the unique id string derived from the arena index and the
optional parent linkage fields is injective across the tree: nodes with
distinct arena ids always get distinct id strings, whatever their parent
fields are. -/
theorem uniq_id_of_injective (n1 n2 : FCNode) (i1 i2 : Nat) (hne : i1 ≠ i2) :
    uniq_id_of n1 i1 ≠ uniq_id_of n2 i2 := by
  intro heq
  apply hne
  apply natChars_injective
  rw [← uniq_id_of_takeWhile n1 i1, ← uniq_id_of_takeWhile n2 i2, heq]

/-- Witness for C9: a root node with id 1 and a nested node with id 2 get
distinct unique id strings. -/
theorem uniq_id_of_injective_witness :
    (1 : Nat) ≠ 2 ∧
      uniq_id_of (FCNode.mk none none none) 1 ≠
        uniq_id_of (FCNode.mk (some (strL "1")) (some (strL "0")) none) 2 :=
  ⟨by decide,
   uniq_id_of_injective (FCNode.mk none none none)
     (FCNode.mk (some (strL "1")) (some (strL "0")) none) 1 2 (by decide)⟩

/-! ## C10: generation of a value of type Any -/

/-- Claim C10 (evaluated against the code): with a non-empty concatenation of
the two in-scope pools, the `AnyType` request succeeds and yields an element
of the concatenation; with both pools empty, the fallback
`choose_random_arg_type(true, false)` trips the inverted assertion
`assert!(!(allow_cbs && !allow_any))` and panics instead of producing a
concrete-typed value — whatever the random draws are. -/
theorem gen_random_value_of_type_any_spec (concrete_arm : ArgType → Except Panic ArgVal)
    (ret : List ArgValAPTracked) (cb : List ArgVal) (fb idx : Nat) :
    (ret.length + cb.length > 0 →
      ∃ v, gen_random_value_of_type_any concrete_arm ret cb fb idx = Except.ok v ∧
        v ∈ ret.map ArgValAPTracked.val ++ cb) ∧
    (ret.length + cb.length = 0 →
      gen_random_value_of_type_any concrete_arm ret cb fb idx =
        Except.error Panic.assertionFailed) := by
  constructor
  · intro hpos
    have htot : ¬ (ret.length + cb.length = 0) := by omega
    unfold gen_random_value_of_type_any
    rw [if_pos hpos]
    show ∃ v, anyTypeArm ret cb idx = Except.ok v ∧ _
    unfold anyTypeArm
    rw [if_neg htot]
    have hlt : idx % (ret.length + cb.length) < ret.length + cb.length :=
      Nat.mod_lt _ (by omega)
    by_cases hcase : idx % (ret.length + cb.length) < ret.length
    · rw [if_pos hcase]
      have hmap : idx % (ret.length + cb.length) < (ret.map ArgValAPTracked.val).length := by
        simpa using hcase
      rw [List.get?_eq_get hmap]
      exact ⟨_, rfl, List.mem_append_left _ (List.get_mem _ _ _)⟩
    · rw [if_neg hcase]
      have hcb : idx % (ret.length + cb.length) - ret.length < cb.length := by omega
      rw [List.get?_eq_get hcb]
      exact ⟨_, rfl, List.mem_append_right _ (List.get_mem _ _ _)⟩
  · intro hzero
    have h0 : ¬ (ret.length + cb.length > 0) := by omega
    unfold gen_random_value_of_type_any
    rw [if_neg h0]
    rfl

/-- Witness for C10 at concrete pools: a one-element return pool yields its
element, and empty pools yield the assertion panic. -/
theorem gen_random_value_of_type_any_spec_witness :
    (∃ v,
      gen_random_value_of_type_any (fun _ => Except.error Panic.indexPanic)
        [ArgValAPTracked.mk (ArgVal.Number (strL "1")) none] [] 0 0 = Except.ok v ∧
      v ∈ [ArgValAPTracked.mk (ArgVal.Number (strL "1")) none].map ArgValAPTracked.val ++
        ([] : List ArgVal)) ∧
    gen_random_value_of_type_any (fun _ => Except.error Panic.indexPanic)
        [] [] 0 0 = Except.error Panic.assertionFailed :=
  ⟨(gen_random_value_of_type_any_spec (fun _ => Except.error Panic.indexPanic)
      [ArgValAPTracked.mk (ArgVal.Number (strL "1")) none] [] 0 0).1 (by simp),
   (gen_random_value_of_type_any_spec (fun _ => Except.error Panic.indexPanic)
      [] [] 0 0).2 rfl⟩

/-! ## C5: registration in the module registry -/

theorem regInner_get (path : AccessPathModuleCentred) :
    ∀ (names : List (List Char)) (g : Registry) (k : AccessPathModuleCentred × List Char),
      (names.foldl
        (fun fns2 name =>
          Function.update fns2 (path, name)
            (some (ModuleFunction.mk name [] (discoveredArity name)))) g) k =
      if k.1 = path ∧ k.2 ∈ names then
        some (ModuleFunction.mk k.2 [] (discoveredArity k.2))
      else g k := by
  intro names
  induction names with
  | nil => intro g k; simp
  | cons n rest ih =>
      intro g k
      rw [List.foldl_cons, ih]
      by_cases hrest : k.1 = path ∧ k.2 ∈ rest
      · rw [if_pos hrest, if_pos ⟨hrest.1, List.mem_cons_of_mem n hrest.2⟩]
      · rw [if_neg hrest]
        by_cases hk : k = (path, n)
        · subst hk
          rw [Function.update_same, if_pos ⟨rfl, List.mem_cons_self n rest⟩]
        · rw [Function.update_noteq hk]
          rw [if_neg]
          intro hcons
          rcases List.mem_cons.mp hcons.2 with h2 | h2
          · exact hk (Prod.ext hcons.1 h2)
          · exact hrest ⟨hcons.1, h2⟩

theorem regFold_keeps_fresh :
    ∀ (props : List (AccessPathModuleCentred × List (List Char))) (g : Registry)
      (k : AccessPathModuleCentred × List Char),
      g k = some (ModuleFunction.mk k.2 [] (discoveredArity k.2)) →
      add_fcts_rooted_in_ret_vals g props k =
        some (ModuleFunction.mk k.2 [] (discoveredArity k.2)) := by
  intro props
  induction props with
  | nil => intro g k h; exact h
  | cons e rest ih =>
      intro g k h
      show add_fcts_rooted_in_ret_vals
        (e.2.foldl (fun fns2 name =>
          Function.update fns2 (e.1, name)
            (some (ModuleFunction.mk name [] (discoveredArity name)))) g) rest k = _
      apply ih
      rw [regInner_get]
      by_cases hc : k.1 = e.1 ∧ k.2 ∈ e.2
      · rw [if_pos hc]
      · rw [if_neg hc]; exact h

/-- Claim C5, amended: registration never removes a key (the key set only
grows), and registering a listed `(path, name)` pair always ends with the
entry being the fresh `ModuleFunction` with empty signature set and the
`then`/`catch` arity heuristic — in particular re-registration of a key that
had accumulated signatures resets them, so registration is not idempotent on
entries. -/
theorem add_fcts_rooted_in_ret_vals_spec (fns : Registry)
    (props : List (AccessPathModuleCentred × List (List Char))) :
    (∀ k, (fns k).isSome = true →
      ((add_fcts_rooted_in_ret_vals fns props) k).isSome = true) ∧
    (∀ path names name, (path, names) ∈ props → name ∈ names →
      add_fcts_rooted_in_ret_vals fns props (path, name) =
        some (ModuleFunction.mk name [] (discoveredArity name))) := by
  constructor
  · intro k
    induction props generalizing fns with
    | nil => intro h; exact h
    | cons e rest ih =>
        intro h
        show ((add_fcts_rooted_in_ret_vals
          (e.2.foldl (fun fns2 name =>
            Function.update fns2 (e.1, name)
              (some (ModuleFunction.mk name [] (discoveredArity name)))) fns) rest) k).isSome =
          true
        apply ih
        rw [regInner_get]
        by_cases hc : k.1 = e.1 ∧ k.2 ∈ e.2
        · rw [if_pos hc]; rfl
        · rw [if_neg hc]; exact h
  · intro path names name hmem hname
    induction props generalizing fns with
    | nil => exact absurd hmem (List.not_mem_nil _)
    | cons e rest ih =>
        rcases List.mem_cons.mp hmem with he | he
        · show add_fcts_rooted_in_ret_vals
            (e.2.foldl (fun fns2 name =>
              Function.update fns2 (e.1, name)
                (some (ModuleFunction.mk name [] (discoveredArity name)))) fns) rest
            (path, name) = _
          apply regFold_keeps_fresh
          rw [regInner_get, if_pos ⟨by rw [← he], by rw [← he]; exact hname⟩]
        · exact ih _ he

/-- Witness for C5's amended statement at a concrete registry: the key
survives and its entry is reset to the fresh empty-signature one. -/
theorem add_fcts_rooted_in_ret_vals_spec_witness :
    ((add_fcts_rooted_in_ret_vals exampleRegistry
          [(AccessPathModuleCentred.RootPath (strL "fs"), [strL "f"])])
        (AccessPathModuleCentred.RootPath (strL "fs"), strL "f")).isSome = true ∧
    add_fcts_rooted_in_ret_vals exampleRegistry
        [(AccessPathModuleCentred.RootPath (strL "fs"), [strL "f"])]
        (AccessPathModuleCentred.RootPath (strL "fs"), strL "f") =
      some (ModuleFunction.mk (strL "f") [] (discoveredArity (strL "f"))) :=
  ⟨(add_fcts_rooted_in_ret_vals_spec exampleRegistry
      [(AccessPathModuleCentred.RootPath (strL "fs"), [strL "f"])]).1
      (AccessPathModuleCentred.RootPath (strL "fs"), strL "f") rfl,
   (add_fcts_rooted_in_ret_vals_spec exampleRegistry
      [(AccessPathModuleCentred.RootPath (strL "fs"), [strL "f"])]).2
     (AccessPathModuleCentred.RootPath (strL "fs")) [strL "f"] (strL "f")
     (List.mem_singleton.mpr rfl) (List.mem_singleton.mpr rfl)⟩

/-- Counterexample for C5 as stated: re-registering the already-present key
`((module fs), f)` does not leave its entry unchanged — the accumulated
signature set is wiped by the fresh insert. -/
theorem add_fcts_rooted_in_ret_vals_not_idempotent :
    add_fcts_rooted_in_ret_vals exampleRegistry
        [(AccessPathModuleCentred.RootPath (strL "fs"), [strL "f"])]
        (AccessPathModuleCentred.RootPath (strL "fs"), strL "f") ≠
      exampleRegistry (AccessPathModuleCentred.RootPath (strL "fs"), strL "f") := by
  intro h
  have hl : add_fcts_rooted_in_ret_vals exampleRegistry
      [(AccessPathModuleCentred.RootPath (strL "fs"), [strL "f"])]
      (AccessPathModuleCentred.RootPath (strL "fs"), strL "f") =
      some (ModuleFunction.mk (strL "f") [] none) := rfl
  have hr : exampleRegistry (AccessPathModuleCentred.RootPath (strL "fs"), strL "f") =
      some (ModuleFunction.mk (strL "f") [FunctionSignature.mk [] none false] none) := rfl
  rw [hl, hr] at h
  have h2 := Option.some.inj h
  injection h2 with h3 h4 h5
  exact List.noConfusion h4

/-! ## C8: mined dataflow wiring in nested extensions -/

theorem minedDataflowAux_bounds :
    ∀ (params : List MinedParam) (k : Nat) (df : List (Nat × Nat)),
      minedDataflowAux k params = some df →
      ∀ pr ∈ df, k ≤ pr.2 ∧ pr.2 < k + params.length := by
  intro params
  induction params with
  | nil =>
      intro k df h pr hpr
      simp only [minedDataflowAux, Option.some.injEq] at h
      subst h
      exact absurd hpr (List.not_mem_nil pr)
  | cons p rest ih =>
      intro k df h pr hpr
      simp only [minedDataflowAux, List.length_cons] at h ⊢
      split at h
      · split at h
        · split at h
          · split at h
            · cases haux : minedDataflowAux (k + 1) rest with
              | none => rw [haux] at h; cases h
              | some l =>
                  rw [haux] at h
                  simp only [Option.map_some', Option.some.injEq] at h
                  subst h
                  rcases List.mem_cons.mp hpr with hp | hp
                  · subst hp; omega
                  · have := ih (k + 1) l haux pr hp
                    omega
            · cases h
          · cases h
        · have := ih (k + 1) df h pr hpr
          omega
      · have := ih (k + 1) df h pr hpr
        omega

theorem minedDataflowAux_pairwise :
    ∀ (params : List MinedParam) (k : Nat) (df : List (Nat × Nat)),
      minedDataflowAux k params = some df →
      df.Pairwise (fun a b => a.2 < b.2) := by
  intro params
  induction params with
  | nil =>
      intro k df h
      simp only [minedDataflowAux, Option.some.injEq] at h
      subst h
      exact List.Pairwise.nil
  | cons p rest ih =>
      intro k df h
      simp only [minedDataflowAux] at h
      split at h
      · split at h
        · split at h
          · split at h
            · cases haux : minedDataflowAux (k + 1) rest with
              | none => rw [haux] at h; cases h
              | some l =>
                  rw [haux] at h
                  simp only [Option.map_some', Option.some.injEq] at h
                  subst h
                  refine List.Pairwise.cons ?_ (ih (k + 1) l haux)
                  intro b hb
                  have := minedDataflowAux_bounds rest (k + 1) l haux b hb
                  omega
            · cases h
          · cases h
        · exact ih (k + 1) df h
      · exact ih (k + 1) df h

theorem wireDataflow_get_of_not_mem (cbArgs : List ArgVal) :
    ∀ (df : List (Nat × Nat)) (args res : List FunctionArgument) (i : Nat),
      wireDataflow cbArgs df args = some res →
      (∀ pr ∈ df, pr.2 ≠ i) →
      res.get? i = args.get? i := by
  intro df
  induction df with
  | nil =>
      intro args res i h _
      cases h
      rfl
  | cons fl rest ih =>
      intro args res i h hni
      simp only [wireDataflow] at h
      by_cases hg : fl.1 < cbArgs.length
      · rw [if_pos hg] at h
        by_cases hr : fl.2 < args.length
        · rw [if_pos hr] at h
          rw [ih _ res i h (fun pr hpr => hni pr (List.mem_cons_of_mem fl hpr))]
          exact List.get?_set_ne _ _ (hni fl (List.mem_cons_self fl rest))
        · rw [if_neg hr] at h; cases h
      · rw [if_neg hg] at h
        exact ih _ res i h (fun pr hpr => hni pr (List.mem_cons_of_mem fl hpr))

theorem wireDataflow_get_of_mem (cbArgs : List ArgVal) :
    ∀ (df : List (Nat × Nat)) (args res : List FunctionArgument) (o i : Nat),
      wireDataflow cbArgs df args = some res →
      df.Pairwise (fun a b => a.2 < b.2) →
      (o, i) ∈ df →
      o < cbArgs.length →
      res.get? i =
        some (FunctionArgument.mk ArgType.AnyType (some (cbArgs.getD o ArgVal.Null))) := by
  intro df
  induction df with
  | nil =>
      intro args res o i h _ hmem
      exact absurd hmem (List.not_mem_nil _)
  | cons fl rest ih =>
      intro args res o i h hpw hmem hg
      simp only [wireDataflow] at h
      rcases List.mem_cons.mp hmem with hfl | hfl
      · rw [← hfl] at h
        rw [if_pos hg] at h
        by_cases hr : i < args.length
        · rw [if_pos hr] at h
          rw [wireDataflow_get_of_not_mem cbArgs rest _ res i h ?_]
          · exact List.get?_set_eq_of_lt _ hr
          · intro pr hpr
            have := (List.pairwise_cons.mp hpw).1 pr hpr
            rw [← hfl] at this
            omega
        · rw [if_neg hr] at h; cases h
      · by_cases hg1 : fl.1 < cbArgs.length
        · rw [if_pos hg1] at h
          by_cases hr : fl.2 < args.length
          · rw [if_pos hr] at h
            exact ih _ res o i h (List.pairwise_cons.mp hpw).2 hfl hg
          · rw [if_neg hr] at h; cases h
        · rw [if_neg hg1] at h
          exact ih _ res o i h (List.pairwise_cons.mp hpw).2 hfl hg

theorem with_args_arg_list (sig : FunctionSignature) (args : List FunctionArgument) :
    (sig.with_args args).arg_list = args := by
  cases sig
  rfl

/-- Claim C8: when the mined-nesting branch of `gen_random_call` produces a
nested extension call, every mined dataflow pair `(o, i)` whose outer
position `o` is within the outer callback's in-scope argument list makes the
generated inner call carry, at argument position `i`, exactly the outer
callback's argument variable at position `o` (wrapped as an `AnyType`
argument), not the freshly initialized value. -/
theorem mined_nested_dataflow_wired (outer : FunctionCall) (ext_uniq_id lib : List Char)
    (mp : MinedNestingPairJSON) (sig : FunctionSignature) (df : List (Nat × Nat))
    (init_args : List FunctionArgument) (wired_call : FunctionCall)
    (hsig : sigFromMinedParams mp.inner_params = Except.ok sig)
    (hdf : minedDataflowAux 0 mp.inner_params = some df)
    (hcall : gen_mined_nested_call outer ext_uniq_id
      (MinedDataNestedExtension.mk mp.inner_fct sig df) init_args lib = some wired_call)
    (o i : Nat) (hmem : (o, i) ∈ df)
    (hguard : o < (outer.sig.get_all_cb_args_vals ext_uniq_id).length) :
    wired_call.sig.arg_list.get? i =
      some (FunctionArgument.mk ArgType.AnyType
        (some ((outer.sig.get_all_cb_args_vals ext_uniq_id).getD o ArgVal.Null))) := by
  unfold gen_mined_nested_call at hcall
  by_cases hone : (outer.sig.get_callback_positions.length == 1) = true
  · rw [if_pos hone] at hcall
    cases hw : wireDataflow (outer.sig.get_all_cb_args_vals ext_uniq_id) df init_args with
    | none =>
        rw [show (MinedDataNestedExtension.mk mp.inner_fct sig df).outer_to_inner_dataflow
            = df from rfl] at hcall
        rw [hw] at hcall
        cases hcall
    | some wired =>
        rw [show (MinedDataNestedExtension.mk mp.inner_fct sig df).outer_to_inner_dataflow
            = df from rfl] at hcall
        rw [hw] at hcall
        have hw_call : wired_call.sig.arg_list = wired := by
          cases hcall
          exact with_args_arg_list _ _
        rw [hw_call]
        exact wireDataflow_get_of_mem _ df init_args wired o i hw
          (minedDataflowAux_pairwise mp.inner_params 0 df hdf) hmem hguard
  · rw [if_neg hone] at hcall
    cases hcall

/-- Witness for C8: the `fs.readFile` / `q.reject` scenario with the mined
dataflow pair `(1, 0)` — the inner call's argument 0 is the outer callback's
argument variable `cb_5_2_arg_1`, not the freshly initialized `0`. -/
theorem mined_nested_dataflow_wired_witness :
    gen_mined_nested_call outerReadFileCall (strL "5")
      (MinedDataNestedExtension.mk (strL "reject") innerRejectSig [(1, 0)])
      innerRejectInitArgs (strL "q") = some wiredRejectCall ∧
    wiredRejectCall.sig.arg_list.get? 0 =
      some (FunctionArgument.mk ArgType.AnyType
        (some ((outerReadFileCall.sig.get_all_cb_args_vals (strL "5")).getD 1 ArgVal.Null))) :=
  ⟨rfl,
   mined_nested_dataflow_wired outerReadFileCall (strL "5") (strL "q")
     (MinedNestingPairJSON.mk (strL "\"fs\"") (strL "readFile")
       [MinedParam.mk (some (strL "outer_arg_0")) none none,
        MinedParam.mk (some (strL "outer_arg_1")) none none,
        MinedParam.mk none (some (strL "CALLBACK")) none]
       (strL "\"q\"") (strL "reject") innerRejectParams)
     innerRejectSig [(1, 0)] innerRejectInitArgs wiredRejectCall
     rfl rfl rfl 1 0 (List.mem_singleton.mpr rfl)
     (by rw [show (outerReadFileCall.sig.get_all_cb_args_vals (strL "5")).length = 2
           from rfl]
         omega)⟩

/-! ## C3: classification of a node from the trace -/

theorem findIdx?_start_spec (p : Json → Bool) :
    ∀ (l : List Json) (st i : Nat) (x : Json),
      l.get? i = some x → p x = true →
      (∀ j y, j < i → l.get? j = some y → p y = false) →
      List.findIdx? p l st = some (st + i) := by
  intro l
  induction l with
  | nil => intro st i x hget _ _; cases i <;> cases hget
  | cons a rest ih =>
      intro st i x hget hx hlt
      cases i with
      | zero =>
          have hax : a = x := Option.some.inj hget
          rw [List.findIdx?_cons, hax, if_pos hx, Nat.add_zero]
      | succ k =>
          have ha : p a = false := hlt 0 a (Nat.succ_pos k) rfl
          rw [List.findIdx?_cons, ha]
          simp only [Bool.false_eq_true, if_false]
          have := ih (st + 1) k x hget hx
            (fun j y hj hget2 => hlt (j + 1) y (by omega) hget2)
          rw [this]
          congr 1
          omega

theorem callbackScanAux_all_null (key : List Char) :
    ∀ (l : List Json) (i0 : Nat) (st : Option Nat × Option (List Char)),
      (∀ j r, l.get? j = some r → jsonIsNull (jsonIndex r key) = true) →
      callbackScanAux key i0 l st = st := by
  intro l
  induction l with
  | nil => intro i0 st _; rfl
  | cons a rest ih =>
      intro i0 st h
      have ha : jsonIsNull (jsonIndex a key) = true := h 0 a rfl
      simp only [callbackScanAux, ha, Bool.not_true, Bool.false_eq_true, if_false]
      exact ih (i0 + 1) st (fun j r hget => h (j + 1) r hget)

theorem callbackScanAux_spec (key : List Char) :
    ∀ (l : List Json) (i0 : Nat) (st : Option Nat × Option (List Char)) (ci : Nat)
      (rc : Json),
      l.get? ci = some rc →
      jsonIsNull (jsonIndex rc key) = false →
      (∀ j r, j ≠ ci → l.get? j = some r → jsonIsNull (jsonIndex r key) = true) →
      callbackScanAux key i0 l st =
        (some (i0 + ci), some (jsonToString (jsonIndex rc key))) := by
  intro l
  induction l with
  | nil => intro i0 st ci rc hget _ _; cases ci <;> cases hget
  | cons a rest ih =>
      intro i0 st ci rc hget hnn hrest
      cases ci with
      | zero =>
          have hac : a = rc := Option.some.inj hget
          subst hac
          simp only [callbackScanAux, hnn, Bool.not_false, if_true]
          rw [callbackScanAux_all_null key rest (i0 + 1) _
            (fun j r hg => hrest (j + 1) r (by omega) hg), Nat.add_zero]
      | succ k =>
          have ha : jsonIsNull (jsonIndex a key) = true := hrest 0 a (by omega) rfl
          simp only [callbackScanAux, ha, Bool.not_true, Bool.false_eq_true, if_false]
          have := ih (i0 + 1) st k rc hget hnn
            (fun j r hj hg => hrest (j + 1) r (by omega) hg)
          rw [this]
          congr 2
          omega

theorem findIdx?_none_of_all_false (p : Json → Bool) :
    ∀ (l : List Json) (st : Nat), (∀ r ∈ l, p r = false) →
      List.findIdx? p l st = none := by
  intro l
  induction l with
  | nil => intro st _; rfl
  | cons a rest ih =>
      intro st h
      rw [List.findIdx?_cons, h a (List.mem_cons_self a rest)]
      simp only [Bool.false_eq_true, if_false]
      exact ih (st + 1) (fun r hr => h r (List.mem_cons_of_mem a hr))

/-- Claim C3: for a node id whose error marker does not occur in the trace,
`diagnose_test_correctness` classifies the node `CallbackCalledAsync` when
the (unique, first) completion marker precedes the (unique) callback-fired
marker, `CallbackCalledSync` when the callback marker precedes the completion
marker, `NoCallbackCalled` when only the completion marker is present, and
`ExecutionError` when the completion marker is absent; in the first two cases
the reported callback argument position is the stringified payload carried by
the callback-fired marker. -/
theorem diagnose_node_spec (output : List Json) (fc_id : List Char)
    (herr : ∀ r ∈ output, jsonBeq r (tagMarker (strL "error_" ++ fc_id)) = false) :
    (∀ di ci rd rc,
      output.get? di = some rd →
      jsonBeq rd (tagMarker (strL "done_" ++ fc_id)) = true →
      (∀ j y, j < di → output.get? j = some y →
        jsonBeq y (tagMarker (strL "done_" ++ fc_id)) = false) →
      output.get? ci = some rc →
      jsonIsNull (jsonIndex rc (strL "callback_exec_" ++ fc_id)) = false →
      (∀ j r, j ≠ ci → output.get? j = some r →
        jsonIsNull (jsonIndex r (strL "callback_exec_" ++ fc_id)) = true) →
      ((di < ci →
          diagnose_node output fc_id =
            (FunctionCallResult.SingleCallback
              SingleCallCallbackTestResult.CallbackCalledAsync,
             some (jsonToString (jsonIndex rc (strL "callback_exec_" ++ fc_id))))) ∧
       (ci < di →
          diagnose_node output fc_id =
            (FunctionCallResult.SingleCallback
              SingleCallCallbackTestResult.CallbackCalledSync,
             some (jsonToString (jsonIndex rc (strL "callback_exec_" ++ fc_id))))))) ∧
    (∀ di rd,
      output.get? di = some rd →
      jsonBeq rd (tagMarker (strL "done_" ++ fc_id)) = true →
      (∀ j y, j < di → output.get? j = some y →
        jsonBeq y (tagMarker (strL "done_" ++ fc_id)) = false) →
      (∀ j r, output.get? j = some r →
        jsonIsNull (jsonIndex r (strL "callback_exec_" ++ fc_id)) = true) →
      diagnose_node output fc_id =
        (FunctionCallResult.SingleCallback SingleCallCallbackTestResult.NoCallbackCalled,
         none)) ∧
    ((∀ r ∈ output, jsonBeq r (tagMarker (strL "done_" ++ fc_id)) = false) →
      (diagnose_node output fc_id).1 = FunctionCallResult.ExecutionError) := by
  have herrB : hasErrorMarker output fc_id = false := by
    unfold hasErrorMarker
    rw [List.any_eq_false]
    intro r hr
    rw [herr r hr]
    intro hcontra
    cases hcontra
  refine ⟨?_, ?_, ?_⟩
  · intro di ci rd rc hdget hdbeq hdfirst hcget hcnn hcuniq
    have hdone : donePosOf output fc_id = some di := by
      unfold donePosOf
      have := findIdx?_start_spec _ output 0 di rd hdget hdbeq hdfirst
      rw [this, Nat.zero_add]
    have hscan : callbackScan output fc_id =
        (some ci, some (jsonToString (jsonIndex rc (strL "callback_exec_" ++ fc_id)))) := by
      unfold callbackScan
      have := callbackScanAux_spec (strL "callback_exec_" ++ fc_id) output 0 (none, none)
        ci rc hcget hcnn hcuniq
      rw [this, Nat.zero_add]
    constructor
    · intro hlt
      unfold diagnose_node
      rw [herrB]
      simp only [Bool.false_eq_true, if_false]
      rw [hdone, hscan]
      simp only [if_pos hlt]
    · intro hlt
      unfold diagnose_node
      rw [herrB]
      simp only [Bool.false_eq_true, if_false]
      rw [hdone, hscan]
      simp only [if_neg (by omega : ¬ di < ci)]
  · intro di rd hdget hdbeq hdfirst hnone
    have hdone : donePosOf output fc_id = some di := by
      unfold donePosOf
      have := findIdx?_start_spec _ output 0 di rd hdget hdbeq hdfirst
      rw [this, Nat.zero_add]
    have hscan : callbackScan output fc_id = (none, none) := by
      unfold callbackScan
      exact callbackScanAux_all_null _ output 0 _ (fun j r hg => hnone j r hg)
    unfold diagnose_node
    rw [herrB]
    simp only [Bool.false_eq_true, if_false]
    rw [hdone, hscan]
  · intro hnodone
    have hdone : donePosOf output fc_id = none := by
      unfold donePosOf
      exact findIdx?_none_of_all_false _ output 0 hnodone
    unfold diagnose_node
    rw [herrB]
    simp only [Bool.false_eq_true, if_false]
    rw [hdone]

/-- Witness for C3 at the spec's concrete scenario: the trace with the
callback marker (payload 2) before the completion marker classifies
`CallbackCalledSync` with reported position string `2`. -/
theorem diagnose_node_spec_witness :
    diagnose_node
      [Json.obj [(strL "callback_exec_5", Json.num 2)],
       Json.obj [(strL "done_5", Json.bool true)]]
      (strL "5") =
    (FunctionCallResult.SingleCallback SingleCallCallbackTestResult.CallbackCalledSync,
     some (strL "2")) :=
  ((diagnose_node_spec
      [Json.obj [(strL "callback_exec_5", Json.num 2)],
       Json.obj [(strL "done_5", Json.bool true)]]
      (strL "5") (by decide)).1
    1 0 (Json.obj [(strL "done_5", Json.bool true)])
    (Json.obj [(strL "callback_exec_5", Json.num 2)])
    rfl (by decide)
    (fun j y hj hget => by
      match j, hget with
      | 0, hget => cases hget; decide)
    rfl (by decide)
    (fun j r hj hget => by
      match j, hget with
      | 0, hget => exact absurd rfl hj
      | 1, hget => cases hget; decide)).2 (by decide)

/-! ## C4: scope monotonicity under extension -/

theorem digitChar_lt_of_lt :
    ∀ a < 10, ∀ b < 10, a < b → Nat.digitChar a < Nat.digitChar b := by
  decide

theorem digitChar_ne_of_ne :
    ∀ a < 10, ∀ b < 10, a ≠ b → (Nat.digitChar a == Nat.digitChar b) = false := by
  decide

theorem nodesWithIds_mem :
    ∀ (ns : List FCNode) (k : Nat) (e : List Char × Option AccessPathModuleCentred),
      e ∈ nodesWithIds k ns →
      ∃ j, ∃ h : j < ns.length,
        e = (uniq_id_of (ns.get ⟨j, h⟩) (k + j), (ns.get ⟨j, h⟩).acc_path) := by
  intro ns
  induction ns with
  | nil => intro k e he; exact absurd he (List.not_mem_nil e)
  | cons n rest ih =>
      intro k e he
      rcases List.mem_cons.mp he with he | he
      · exact ⟨0, Nat.succ_pos rest.length, by simpa using he⟩
      · obtain ⟨j, hj, hje⟩ := ih (k + 1) e he
        refine ⟨j + 1, Nat.succ_lt_succ hj, ?_⟩
        rw [hje]
        have hg : (n :: rest).get ⟨j + 1, Nat.succ_lt_succ hj⟩ = rest.get ⟨j, hj⟩ := rfl
        rw [hg, show k + (j + 1) = k + 1 + j from by omega]

theorem nodesWithIds_append_one :
    ∀ (ns : List FCNode) (k : Nat) (n : FCNode),
      nodesWithIds k (ns ++ [n]) =
        nodesWithIds k ns ++ [(uniq_id_of n (k + ns.length), n.acc_path)] := by
  intro ns
  induction ns with
  | nil => intro k n; simp [nodesWithIds]
  | cons m rest ih =>
      intro k n
      show (uniq_id_of m k, m.acc_path) :: nodesWithIds (k + 1) (rest ++ [n]) =
        (uniq_id_of m k, m.acc_path) ::
          (nodesWithIds (k + 1) rest ++
            [(uniq_id_of n (k + (rest.length + 1)), n.acc_path)])
      rw [ih (k + 1) n, show k + 1 + rest.length = k + (rest.length + 1) from by omega]

theorem uniq_id_of_underscore_free (node : FCNode) (i : Nat)
    (h : (uniq_id_of node i).count '_' = 0) : uniq_id_of node i = natChars i := by
  obtain ⟨pc, pa, app⟩ := node
  cases pc with
  | some pcid =>
      exfalso
      simp only [uniq_id_of, FCNode.parent_call_id, FCNode.parent_arg_position_nesting,
        show strL "_pcid" = '_' :: strL "pcid" from rfl] at h
      simp [List.count_append, List.count_cons] at h
  | none =>
      cases pa with
      | some pos =>
          exfalso
          simp only [uniq_id_of, FCNode.parent_call_id,
            FCNode.parent_arg_position_nesting,
            show strL "_pos" = '_' :: strL "pos" from rfl] at h
          simp [List.count_append, List.count_cons] at h
      | none =>
          simp [uniq_id_of, FCNode.parent_call_id, FCNode.parent_arg_position_nesting]

theorem ret_values_into_extended (t : TestModel) (ext_pos : Nat)
    (hsmall : t.fct_tree.length ≤ 8) (hpos : ext_pos < t.fct_tree.length)
    (new : FCNode)
    (hnew : ∃ tailY,
      uniq_id_of new (t.fct_tree.length + 1) =
        Nat.digitChar (t.fct_tree.length + 1) :: tailY) :
    ∀ x ∈ t.get_ret_values_accessible_from_ext_point ext_pos,
      x ∈ (TestModel.mk (t.fct_tree ++ [new])
            t.mod_js_var_name).get_ret_values_accessible_from_ext_point
            t.fct_tree.length := by
  intro x hx
  obtain ⟨tailY, htail⟩ := hnew
  have hgetS : ∃ en, t.fct_tree.get? ext_pos = some en := by
    cases hg : t.fct_tree.get? ext_pos with
    | none => rw [List.get?_eq_none] at hg; omega
    | some en => exact ⟨en, rfl⟩
  obtain ⟨ext_node, hget⟩ := hgetS
  unfold TestModel.get_ret_values_accessible_from_ext_point at hx
  rw [hget] at hx
  obtain ⟨e, hefil, hex⟩ := List.mem_map.mp hx
  have hemem := (List.mem_filter.mp hefil).1
  have hepred := (List.mem_filter.mp hefil).2
  rw [Bool.and_eq_true] at hepred
  have hcount : e.1.count '_' = 0 := by
    simpa using hepred.2
  obtain ⟨j, hj, hje⟩ := nodesWithIds_mem t.fct_tree 1 e hemem
  have hid : e.1 = natChars (1 + j) := by
    rw [hje]
    exact uniq_id_of_underscore_free _ _ (by rw [hje] at hcount; exact hcount)
  -- the new test
  unfold TestModel.get_ret_values_accessible_from_ext_point
  rw [show (TestModel.mk (t.fct_tree ++ [new]) t.mod_js_var_name).fct_tree =
      t.fct_tree ++ [new] from rfl]
  rw [List.get?_concat_length]
  rw [show (TestModel.mk (t.fct_tree ++ [new]) t.mod_js_var_name).mod_js_var_name =
      t.mod_js_var_name from rfl]
  apply List.mem_map.mpr
  refine ⟨e, List.mem_filter.mpr ⟨?_, ?_⟩, hex⟩
  · rw [nodesWithIds_append_one]
    exact List.mem_append_left _ hemem
  · have hij : 1 + j < 10 := by omega
    have hlen1 : t.fct_tree.length + 1 < 10 := by omega
    have hlt : 1 + j < t.fct_tree.length + 1 := by omega
    have hidY : uniq_id_of new (t.fct_tree.length + 1) =
        Nat.digitChar (t.fct_tree.length + 1) :: tailY := htail
    have hidZ : e.1 = [Nat.digitChar (1 + j)] := by
      rw [hid, natChars_single hij]
    rw [Bool.and_eq_true]
    constructor
    · rw [Bool.and_eq_true]
      constructor
      · -- lexLt
        rw [hidZ, hidY]
        show lexLt [Nat.digitChar (1 + j)]
          (Nat.digitChar (t.fct_tree.length + 1) :: tailY) = true
        unfold lexLt
        rw [if_neg]
        · simp only [decide_eq_true_eq]
          exact digitChar_lt_of_lt _ hij _ hlen1 hlt
        · intro hc
          have := digitChar_ne_of_ne _ hij _ hlen1 (by omega)
          rw [hc] at this
          simp at this
      · -- not a prefix of the new id
        rw [hidZ, hidY]
        show (!startsWithL [Nat.digitChar (1 + j)]
          (Nat.digitChar (t.fct_tree.length + 1) :: tailY)) = true
        unfold startsWithL
        rw [show List.isPrefixOf [Nat.digitChar (1 + j)]
            (Nat.digitChar (t.fct_tree.length + 1) :: tailY) =
            ((Nat.digitChar (1 + j) == Nat.digitChar (t.fct_tree.length + 1)) &&
              List.isPrefixOf [] tailY) from rfl]
        rw [digitChar_ne_of_ne _ hij _ hlen1 (by omega)]
        rfl
    · simpa using hcount

/-- Claim C4, amended: when every node id in the extended test is a single
digit (base test of at most eight nodes), the in-scope return values at the
new node of the extended test — for either extension type — include every
return value that was in scope at the extension point of the base test. -/
theorem get_ret_values_monotone_small (t : TestModel) (ext_pos : Nat)
    (hsmall : t.fct_tree.length ≤ 8) (hpos : ext_pos < t.fct_tree.length)
    (cb_arg_pos : Option (List Char)) (ap : Option AccessPathModuleCentred) :
    (∀ x ∈ t.get_ret_values_accessible_from_ext_point ext_pos,
      x ∈ (t.extend_sequential ap).get_ret_values_accessible_from_ext_point
            t.fct_tree.length) ∧
    (∀ x ∈ t.get_ret_values_accessible_from_ext_point ext_pos,
      x ∈ (t.extend_nested ext_pos cb_arg_pos ap).get_ret_values_accessible_from_ext_point
            t.fct_tree.length) := by
  constructor
  · intro x hx
    apply ret_values_into_extended t ext_pos hsmall hpos (FCNode.mk none none ap) ?_ x hx
    refine ⟨[], ?_⟩
    simp only [uniq_id_of, FCNode.parent_call_id, FCNode.parent_arg_position_nesting]
    rw [natChars_single (by omega)]
    simp
  · intro x hx
    apply ret_values_into_extended t ext_pos hsmall hpos
      (FCNode.mk (some (natChars (ext_pos + 1))) cb_arg_pos ap) ?_ x hx
    refine ⟨strL "_pcid" ++ natChars (ext_pos + 1) ++
      (match cb_arg_pos with
       | some pos => strL "_pos" ++ pos
       | none => []), ?_⟩
    simp only [uniq_id_of, FCNode.parent_call_id, FCNode.parent_arg_position_nesting]
    rw [natChars_single (by omega)]
    simp [List.append_assoc]

/-- Witness for C4's amended statement: a two-call test extended at its
second call keeps the first call's return value in scope, both ways. -/
theorem get_ret_values_monotone_small_witness :
    (∀ x ∈ (TestModel.mk
        [FCNode.mk none none (some (AccessPathModuleCentred.RootPath (strL "m"))),
         FCNode.mk none none (some (AccessPathModuleCentred.RootPath (strL "m")))]
        (strL "m")).get_ret_values_accessible_from_ext_point 1,
      x ∈ ((TestModel.mk
        [FCNode.mk none none (some (AccessPathModuleCentred.RootPath (strL "m"))),
         FCNode.mk none none (some (AccessPathModuleCentred.RootPath (strL "m")))]
        (strL "m")).extend_sequential none).get_ret_values_accessible_from_ext_point 2) ∧
    (∀ x ∈ (TestModel.mk
        [FCNode.mk none none (some (AccessPathModuleCentred.RootPath (strL "m"))),
         FCNode.mk none none (some (AccessPathModuleCentred.RootPath (strL "m")))]
        (strL "m")).get_ret_values_accessible_from_ext_point 1,
      x ∈ ((TestModel.mk
        [FCNode.mk none none (some (AccessPathModuleCentred.RootPath (strL "m"))),
         FCNode.mk none none (some (AccessPathModuleCentred.RootPath (strL "m")))]
        (strL "m")).extend_nested 1 (some (strL "2"))
          none).get_ret_values_accessible_from_ext_point 2) :=
  get_ret_values_monotone_small
    (TestModel.mk
      [FCNode.mk none none (some (AccessPathModuleCentred.RootPath (strL "m"))),
       FCNode.mk none none (some (AccessPathModuleCentred.RootPath (strL "m")))]
      (strL "m"))
    1 (by decide) (by decide) (some (strL "2")) none

/-- Counterexample for C4 as stated: extending the nine-call test at its
ninth call gives a new node with id `10`; lexicographically no single-digit
id sorts before `"10"` except `"1"`, which is excluded as a prefix of
`"10"`, so the new extension point sees no in-scope return values at all
while the old point saw eight. -/
theorem get_ret_values_not_monotone :
    ¬ (∀ x ∈ nineNodeTest.get_ret_values_accessible_from_ext_point 8,
        x ∈ (nineNodeTest.extend_sequential
              none).get_ret_values_accessible_from_ext_point 9) := by
  intro h
  cases hx : nineNodeTest.get_ret_values_accessible_from_ext_point 8 with
  | nil =>
      have hlen : (nineNodeTest.get_ret_values_accessible_from_ext_point 8).length = 8 := rfl
      rw [hx] at hlen
      cases hlen
  | cons v rest =>
      have hmem : v ∈ nineNodeTest.get_ret_values_accessible_from_ext_point 8 := by
        rw [hx]
        exact List.mem_cons_self v rest
      have hv := h v hmem
      rw [show (nineNodeTest.extend_sequential
          none).get_ret_values_accessible_from_ext_point 9 = [] from rfl] at hv
      exact absurd hv (List.not_mem_nil v)

/-! ## C1: string-machinery lemmas for the round-trip analysis -/

theorem bool_ne_true {b : Bool} (h : b = false) : ¬ b = true := by
  subst h
  exact Bool.noConfusion

theorem display_last (p : AccessPathModuleCentred) :
    (AccessPathModuleCentred.display p).getLast? = some ')' := by
  cases p with
  | RootPath m =>
      show ((strL "(module " ++ m) ++ [')']).getLast? = some ')'
      rw [List.getLast?_append_cons]
      rfl
  | ReturnPath p =>
      show ((strL "(return " ++ p.display) ++ [')']).getLast? = some ')'
      rw [List.getLast?_append_cons]
      rfl
  | FieldAccPath p f =>
      show ((((strL "(member " ++ f.debugFmt) ++ strL " ") ++ p.display) ++ [')']).getLast? =
        some ')'
      rw [List.getLast?_append_cons]
      rfl
  | ParamPath p i =>
      show ((((strL "(param " ++ natChars i) ++ strL " ") ++ p.display) ++ [')']).getLast? =
        some ')'
      rw [List.getLast?_append_cons]
      rfl
  | InstancePath p =>
      show ((strL "(new " ++ p.display) ++ [')']).getLast? = some ')'
      rw [List.getLast?_append_cons]
      rfl

theorem stage2_last {p : AccessPathModuleCentred} (h : roundTrippable p = true) :
    (displayStage2 p).getLast? = some ')' := by
  cases p with
  | RootPath m =>
      show ((strL "(module " ++ m) ++ [')']).getLast? = some ')'
      rw [List.getLast?_append_cons]
      rfl
  | ReturnPath p =>
      show ((strL "(return " ++ displayStage2 p) ++ [')']).getLast? = some ')'
      rw [List.getLast?_append_cons]
      rfl
  | FieldAccPath p f =>
      cases f with
      | StringField f =>
          show ((((strL "(member StringField" ++ f) ++ strL " ") ++ displayStage2 p) ++
            [')']).getLast? = some ')'
          rw [List.getLast?_append_cons]
          rfl
      | IndexField n => exact Bool.noConfusion h
  | ParamPath p i => exact Bool.noConfusion h
  | InstancePath p =>
      show ((strL "(new " ++ displayStage2 p) ++ [')']).getLast? = some ')'
      rw [List.getLast?_append_cons]
      rfl

theorem find_map_replace (k : AccessPathModuleCentred) (v : List (List Char)) :
    ∀ m : List (AccessPathModuleCentred × List (List Char)),
      m.any (fun e => e.1 == k) = true →
      (m.map (fun e => if e.1 == k then (k, v) else e)).find? (fun e => e.1 == k) =
        some (k, v) := by
  intro m
  induction m with
  | nil => intro h; exact absurd h (by simp)
  | cons e m ih =>
      intro h
      simp only [List.any_cons] at h
      simp only [List.map_cons]
      cases hek : (e.1 == k) with
      | true =>
          rw [if_pos rfl]
          exact @List.find?_cons_of_pos _ (fun e => e.1 == k) (k, v)
            (m.map (fun e => if e.1 == k then (k, v) else e)) (beq_self_eq_true k)
      | false =>
          rw [if_neg (by decide : ¬ false = true)]
          rw [@List.find?_cons_of_neg _ (fun e => e.1 == k) e
            (m.map (fun e => if e.1 == k then (k, v) else e)) (bool_ne_true hek)]
          rw [hek, Bool.false_or] at h
          exact ih h

theorem find_append_absent (k : AccessPathModuleCentred) (v : List (List Char)) :
    ∀ m : List (AccessPathModuleCentred × List (List Char)),
      m.any (fun e => e.1 == k) = false →
      (m ++ [(k, v)]).find? (fun e => e.1 == k) = some (k, v) := by
  intro m
  induction m with
  | nil =>
      intro _
      exact @List.find?_cons_of_pos _ (fun e => e.1 == k) (k, v) [] (beq_self_eq_true k)
  | cons e m ih =>
      intro h
      simp only [List.any_cons, Bool.or_eq_false_iff] at h
      rw [List.cons_append, @List.find?_cons_of_neg _ (fun e => e.1 == k) e
        (m ++ [(k, v)]) (bool_ne_true h.1), ih h.2]

theorem lookup_insertReplace_same
    (m : List (AccessPathModuleCentred × List (List Char)))
    (k : AccessPathModuleCentred) (v : List (List Char)) :
    lookupAP (insertReplace m k v) k = some v := by
  show ((insertReplace m k v).find? (fun e => e.1 == k)).map (fun e => e.2) = some v
  cases hany : m.any (fun e => e.1 == k) with
  | true =>
      rw [show insertReplace m k v = m.map (fun e => if e.1 == k then (k, v) else e)
        from by simp only [insertReplace]; rw [if_pos hany]]
      rw [find_map_replace k v m hany]
      rfl
  | false =>
      rw [show insertReplace m k v = m ++ [(k, v)] from by
        simp only [insertReplace]
        rw [if_neg (bool_ne_true hany)]]
      rw [find_append_absent k v m hany]
      rfl

theorem find_map_replace_ne {k q : AccessPathModuleCentred} (v : List (List Char))
    (hqk : (q == k) = false) :
    ∀ m : List (AccessPathModuleCentred × List (List Char)),
      (m.map (fun e => if e.1 == q then (q, v) else e)).find? (fun e => e.1 == k) =
        m.find? (fun e => e.1 == k) := by
  intro m
  induction m with
  | nil => rfl
  | cons e m ih =>
      simp only [List.map_cons]
      cases heq : (e.1 == q) with
      | true =>
          rw [if_pos rfl]
          have he1 : e.1 = q := beq_iff_eq.mp heq
          have hek : (e.1 == k) = false := by rw [he1]; exact hqk
          rw [@List.find?_cons_of_neg _ (fun e => e.1 == k) (q, v)
            (m.map (fun e => if e.1 == q then (q, v) else e)) (bool_ne_true hqk),
            @List.find?_cons_of_neg _ (fun e => e.1 == k) e m (bool_ne_true hek), ih]
      | false =>
          rw [if_neg (by decide : ¬ false = true)]
          cases hek : (e.1 == k) with
          | true =>
              rw [@List.find?_cons_of_pos _ (fun e => e.1 == k) e
                (m.map (fun e => if e.1 == q then (q, v) else e)) hek,
                @List.find?_cons_of_pos _ (fun e => e.1 == k) e m hek]
          | false =>
              rw [@List.find?_cons_of_neg _ (fun e => e.1 == k) e
                (m.map (fun e => if e.1 == q then (q, v) else e)) (bool_ne_true hek),
                @List.find?_cons_of_neg _ (fun e => e.1 == k) e m (bool_ne_true hek),
                ih]

theorem find_append_ne {k q : AccessPathModuleCentred} (v : List (List Char))
    (hqk : (q == k) = false) :
    ∀ m : List (AccessPathModuleCentred × List (List Char)),
      (m ++ [(q, v)]).find? (fun e => e.1 == k) = m.find? (fun e => e.1 == k) := by
  intro m
  induction m with
  | nil =>
      show List.find? (fun e => e.1 == k) ((q, v) :: []) = none
      rw [@List.find?_cons_of_neg _ (fun e => e.1 == k) (q, v) [] (bool_ne_true hqk)]
      rfl
  | cons e m ih =>
      rw [List.cons_append]
      cases hek : (e.1 == k) with
      | true =>
          rw [@List.find?_cons_of_pos _ (fun e => e.1 == k) e (m ++ [(q, v)]) hek,
            @List.find?_cons_of_pos _ (fun e => e.1 == k) e m hek]
      | false =>
          rw [@List.find?_cons_of_neg _ (fun e => e.1 == k) e (m ++ [(q, v)])
            (bool_ne_true hek),
            @List.find?_cons_of_neg _ (fun e => e.1 == k) e m (bool_ne_true hek), ih]

theorem lookup_insertReplace_ne
    (m : List (AccessPathModuleCentred × List (List Char)))
    {k q : AccessPathModuleCentred} (v : List (List Char)) (hqk : q ≠ k) :
    lookupAP (insertReplace m q v) k = lookupAP m k := by
  have hb : (q == k) = false := beq_eq_false_iff_ne.mpr hqk
  show ((insertReplace m q v).find? (fun e => e.1 == k)).map (fun e => e.2) = _
  cases hany : m.any (fun e => e.1 == q) with
  | true =>
      rw [show insertReplace m q v = m.map (fun e => if e.1 == q then (q, v) else e)
        from by simp only [insertReplace]; rw [if_pos hany]]
      rw [find_map_replace_ne v hb m]
      rfl
  | false =>
      rw [show insertReplace m q v = m ++ [(q, v)] from by
        simp only [insertReplace]
        rw [if_neg (bool_ne_true hany)]]
      rw [find_append_ne v hb m]
      rfl

theorem lookup_propsStep_none (rm : List (AccessPathModuleCentred × List (List Char)))
    (e : List Char × Json) (p : AccessPathModuleCentred)
    (h : (if AccessPathModuleCentred.from_str e.1 == some p then
        match e.2 with
        | Json.arr val_vec => some val_vec
        | _ => none
      else none) = none) :
    lookupAP (propsStep rm e) p = lookupAP rm p := by
  cases hdec : AccessPathModuleCentred.from_str e.1 with
  | none =>
      rw [show propsStep rm e = rm from by simp only [propsStep]; rw [hdec]]
  | some q =>
      rw [hdec] at h
      cases harr : e.2 with
      | arr v =>
          rw [harr] at h
          rw [show propsStep rm e = insertReplace rm q (jsonStringsOf v) from by
            simp only [propsStep]
            rw [hdec, harr]]
          cases hqp : ((some q : Option AccessPathModuleCentred) == some p) with
          | true =>
              rw [hqp] at h
              rw [if_pos rfl] at h
              exact Option.noConfusion h
          | false =>
              have hqp2 : q ≠ p := by
                intro he
                subst he
                rw [beq_self_eq_true] at hqp
                exact Bool.noConfusion hqp
              exact lookup_insertReplace_ne rm (jsonStringsOf v) hqp2
      | null =>
          rw [show propsStep rm e = rm from by simp only [propsStep]; rw [hdec, harr]]
      | bool b =>
          rw [show propsStep rm e = rm from by simp only [propsStep]; rw [hdec, harr]]
      | num n =>
          rw [show propsStep rm e = rm from by simp only [propsStep]; rw [hdec, harr]]
      | str ss =>
          rw [show propsStep rm e = rm from by simp only [propsStep]; rw [hdec, harr]]
      | obj mm =>
          rw [show propsStep rm e = rm from by simp only [propsStep]; rw [hdec, harr]]

theorem propsStep_some (rm : List (AccessPathModuleCentred × List (List Char)))
    (e : List Char × Json) (p : AccessPathModuleCentred) (v : List Json)
    (h : (if AccessPathModuleCentred.from_str e.1 == some p then
        match e.2 with
        | Json.arr val_vec => some val_vec
        | _ => none
      else none) = some v) :
    propsStep rm e = insertReplace rm p (jsonStringsOf v) := by
  cases hdec : AccessPathModuleCentred.from_str e.1 with
  | none =>
      rw [hdec] at h
      rw [if_neg (bool_ne_true (show ((none : Option AccessPathModuleCentred) ==
        some p) = false from rfl))] at h
      exact Option.noConfusion h
  | some q =>
      rw [hdec] at h
      cases hqp : ((some q : Option AccessPathModuleCentred) == some p) with
      | false =>
          rw [hqp] at h
          rw [if_neg (by decide : ¬ false = true)] at h
          exact Option.noConfusion h
      | true =>
          rw [hqp, if_pos rfl] at h
          have hq : q = p := by
            have : (q == p) = true := hqp
            exact beq_iff_eq.mp this
          subst hq
          cases harr : e.2 with
          | arr w =>
              rw [harr] at h
              injection h with h
              subst h
              simp only [propsStep]
              rw [hdec, harr]
          | null => rw [harr] at h; exact Option.noConfusion h
          | bool b => rw [harr] at h; exact Option.noConfusion h
          | num n => rw [harr] at h; exact Option.noConfusion h
          | str ss => rw [harr] at h; exact Option.noConfusion h
          | obj mm => rw [harr] at h; exact Option.noConfusion h

theorem match_last_cons (v : List Json) (L : List (List Json))
    (z : Option (List (List Char))) :
    (match (v :: L).getLast? with
     | some V => some (jsonStringsOf V)
     | none => z) =
    (match L.getLast? with
     | some V => some (jsonStringsOf V)
     | none => some (jsonStringsOf v)) := by
  cases L with
  | nil => rfl
  | cons w ws =>
      rw [List.getLast?_cons_cons]
      cases hg : (w :: ws).getLast? with
      | none =>
          have hsome := List.getLast?_isSome.mpr (List.cons_ne_nil w ws)
          rw [hg] at hsome
          exact Bool.noConfusion hsome
      | some V => rfl

theorem lookup_propsOfEntries (p : AccessPathModuleCentred) :
    ∀ (entries : List (List Char × Json))
      (rm : List (AccessPathModuleCentred × List (List Char))),
      lookupAP (propsOfEntries rm entries) p =
        match (entries.filterMap (fun e =>
          if AccessPathModuleCentred.from_str e.1 == some p then
            match e.2 with
            | Json.arr val_vec => some val_vec
            | _ => none
          else none)).getLast? with
        | some V => some (jsonStringsOf V)
        | none => lookupAP rm p := by
  intro entries
  induction entries with
  | nil => intro rm; rfl
  | cons e rest ih =>
      intro rm
      rw [show propsOfEntries rm (e :: rest) = propsOfEntries (propsStep rm e) rest
        from rfl]
      rw [ih]
      simp only [List.filterMap_cons]
      cases hfe : (if AccessPathModuleCentred.from_str e.1 == some p then
          match e.2 with
          | Json.arr val_vec => some val_vec
          | _ => none
        else none) with
      | none =>
          rw [lookup_propsStep_none rm e p hfe]
      | some v =>
          rw [propsStep_some rm e p v hfe, lookup_insertReplace_same]
          exact (match_last_cons v _ (lookupAP rm p)).symm

theorem lookupAP_mem {m : List (AccessPathModuleCentred × List (List Char))}
    {p : AccessPathModuleCentred} {vs : List (List Char)}
    (h : lookupAP m p = some vs) : (p, vs) ∈ m := by
  rw [show lookupAP m p = (m.find? (fun e => e.1 == p)).map (fun e => e.2) from rfl] at h
  cases hf : m.find? (fun e => e.1 == p) with
  | none =>
      rw [hf] at h
      exact Option.noConfusion h
  | some e0 =>
      rw [hf] at h
      injection h with h2
      have hmem := List.mem_of_find?_eq_some hf
      have hp := List.find?_some hf
      have hp1 : e0.1 = p := beq_iff_eq.mp hp
      have he : (p, vs) = e0 := by rw [← hp1, ← h2]
      rw [he]
      exact hmem

theorem add_fcts_registered :
    ∀ (props : List (AccessPathModuleCentred × List (List Char))) (fns : Registry)
      (path : AccessPathModuleCentred) (names : List (List Char)) (name : List Char),
      (path, names) ∈ props → name ∈ names →
      add_fcts_rooted_in_ret_vals fns props (path, name) =
        some (ModuleFunction.mk name [] (discoveredArity name)) := by
  intro props
  induction props with
  | nil =>
      intro fns path names name hmem _
      exact absurd hmem (List.not_mem_nil _)
  | cons e rest ih =>
      intro fns path names name hmem hname
      rcases List.mem_cons.mp hmem with he | he
      · show add_fcts_rooted_in_ret_vals
          (e.2.foldl (fun fns2 name =>
            Function.update fns2 (e.1, name)
              (some (ModuleFunction.mk name [] (discoveredArity name)))) fns) rest
          (path, name) = _
        apply regFold_keeps_fresh
        rw [regInner_get, if_pos ⟨by rw [← he], by rw [← he]; exact hname⟩]
      · exact ih (e.2.foldl (fun fns2 name =>
          Function.update fns2 (e.1, name)
            (some (ModuleFunction.mk name [] (discoveredArity name)))) fns)
          path names name he hname

theorem propsOfEntries_append (ys : List (List Char × Json)) :
    ∀ (xs : List (List Char × Json)) rm,
      propsOfEntries rm (xs ++ ys) = propsOfEntries (propsOfEntries rm xs) ys := by
  intro xs
  induction xs with
  | nil => intro rm; rfl
  | cons e xs ih =>
      intro rm
      rw [List.cons_append]
      rw [show propsOfEntries rm (e :: (xs ++ ys)) =
        propsOfEntries (propsStep rm e) (xs ++ ys) from rfl]
      rw [show propsOfEntries rm (e :: xs) = propsOfEntries (propsStep rm e) xs from rfl]
      exact ih (propsStep rm e)

theorem get_function_props_eq (output_vec : List Json) :
    get_function_props_for_acc_paths output_vec =
      propsOfEntries [] (traceEntries output_vec) := by
  have key : ∀ (vec : List Json) rm, vec.foldl
      (fun ret_map val =>
        match val with
        | Json.obj m => propsOfEntries ret_map m
        | _ => ret_map) rm = propsOfEntries rm (traceEntries vec) := by
    intro vec
    induction vec with
    | nil => intro rm; rfl
    | cons v vec ih =>
        intro rm
        rw [List.foldl_cons]
        rw [show traceEntries (v :: vec) =
          (match v with
           | Json.obj m => m
           | _ => []) ++ traceEntries vec from rfl]
        rw [propsOfEntries_append]
        cases v with
        | obj m => exact ih _
        | null => exact ih _
        | bool b => exact ih _
        | num n => exact ih _
        | str ss => exact ih _
        | arr l => exact ih _
  exact key output_vec []

/-- Claim C7 (amended): a trace entry whose key decodes to the access path `p`
and whose value is a JSON array only registers its named functions when it is
the LAST such entry for `p` in the trace (`ret_map.insert` keeps one payload
per decoded path, last write wins); every name in that last payload is then
registered at `(p, name)` as a fresh `ModuleFunction` whose arity is `Some 1`
for `then`/`catch` and `None` otherwise. Names that appear only in earlier
entries for the same path are not registered, so the per-record universal
claim is false. -/
theorem trace_registration_last_entry (fns : Registry) (output_vec : List Json)
    (p : AccessPathModuleCentred) (V : List Json)
    (hlast : (relevantPayloadsFor output_vec p).getLast? = some V) :
    ∀ name ∈ jsonStringsOf V,
      add_fcts_rooted_in_ret_vals fns (get_function_props_for_acc_paths output_vec)
        (p, name) = some (ModuleFunction.mk name [] (discoveredArity name)) := by
  intro name hname
  have hlook : lookupAP (get_function_props_for_acc_paths output_vec) p =
      some (jsonStringsOf V) := by
    rw [get_function_props_eq, lookup_propsOfEntries]
    rw [show (traceEntries output_vec).filterMap (fun e =>
        if AccessPathModuleCentred.from_str e.1 == some p then
          match e.2 with
          | Json.arr val_vec => some val_vec
          | _ => none
        else none) = relevantPayloadsFor output_vec p from rfl]
    rw [hlast]
  exact add_fcts_registered (get_function_props_for_acc_paths output_vec) fns p
    (jsonStringsOf V) name (lookupAP_mem hlook) hname

/-- Witness for C7's amended statement at the concrete `then`/`catch` trace
from the spec: the single entry is the last (only) one for the path
`Return(Root "fs")`, and both names end up registered with arity 1. -/
theorem trace_registration_last_entry_witness :
    (relevantPayloadsFor
        [Json.obj [(strL "(return (module fs))",
          Json.arr [Json.str (strL "then"), Json.str (strL "catch")])]]
        (AccessPathModuleCentred.ReturnPath
          (AccessPathModuleCentred.RootPath (strL "fs")))).getLast? =
      some [Json.str (strL "then"), Json.str (strL "catch")] ∧
    add_fcts_rooted_in_ret_vals emptyRegistry
        (get_function_props_for_acc_paths
          [Json.obj [(strL "(return (module fs))",
            Json.arr [Json.str (strL "then"), Json.str (strL "catch")])]])
        (AccessPathModuleCentred.ReturnPath
          (AccessPathModuleCentred.RootPath (strL "fs")), strL "then") =
      some (ModuleFunction.mk (strL "then") [] (some 1)) ∧
    add_fcts_rooted_in_ret_vals emptyRegistry
        (get_function_props_for_acc_paths
          [Json.obj [(strL "(return (module fs))",
            Json.arr [Json.str (strL "then"), Json.str (strL "catch")])]])
        (AccessPathModuleCentred.ReturnPath
          (AccessPathModuleCentred.RootPath (strL "fs")), strL "catch") =
      some (ModuleFunction.mk (strL "catch") [] (some 1)) :=
  ⟨rfl,
   trace_registration_last_entry emptyRegistry
     [Json.obj [(strL "(return (module fs))",
       Json.arr [Json.str (strL "then"), Json.str (strL "catch")])]]
     (AccessPathModuleCentred.ReturnPath
       (AccessPathModuleCentred.RootPath (strL "fs")))
     [Json.str (strL "then"), Json.str (strL "catch")] rfl (strL "then") (by decide),
   trace_registration_last_entry emptyRegistry
     [Json.obj [(strL "(return (module fs))",
       Json.arr [Json.str (strL "then"), Json.str (strL "catch")])]]
     (AccessPathModuleCentred.ReturnPath
       (AccessPathModuleCentred.RootPath (strL "fs")))
     [Json.str (strL "then"), Json.str (strL "catch")] rfl (strL "catch") (by decide)⟩

/-- Counterexample for C7 as stated: the first record is a trace entry whose
key decodes to `(module fs)` and whose value is the array `["a"]`, yet after
processing the whole trace the function `a` is not registered at that path —
the second record's entry for the same path overwrote the first in `ret_map`,
so only `b` was registered. -/
theorem trace_registration_clobbered :
    add_fcts_rooted_in_ret_vals emptyRegistry
        (get_function_props_for_acc_paths
          [Json.obj [(strL "(module fs)", Json.arr [Json.str (strL "a")])],
           Json.obj [(strL "(module fs)", Json.arr [Json.str (strL "b")])]])
        (AccessPathModuleCentred.RootPath (strL "fs"), strL "a") = none := by
  rfl

end Nessie
